import Mathlib

/-
Verification of the task-orchestration core of jornhand/kagglewithmixfile
(src/main.py): the weighted progress model (`TaskProgressModel` inside
`result_processor_thread_loop`), the result-aggregator event loop itself,
and the batched subtitle-transcription scheduler
(`_process_subtitle_batch_with_ai` / `run_subtitle_extraction_pipeline`).

Machine floats of the Python source are embedded as exact rationals (ℚ);
Python's `int(...)` truncation toward zero is `truncInt` below.
-/

namespace KaggleMix

/-- Per-component status strings used in `tasks[..]['results'][comp]['status']`. -/
inductive CompStatus where
  | PENDING | RUNNING | SUCCESS | FAILED | SKIPPED
deriving DecidableEq, Repr

/-- Task-level status strings used in `tasks[..]['status']`.
`PS` stands for the source's third terminal status (partial success). -/
inductive TaskStatus where
  | QUEUED | RUNNING | SUCCESS | FAILED | PS
deriving DecidableEq, Repr

/-- The three task-level terminal statuses (the source's literal set
at lines 1835/1845 of src/main.py). -/
def TaskStatus.isTerminal : TaskStatus → Bool
  | .SUCCESS => true
  | .FAILED => true
  | .PS => true
  | _ => false

/-- The request parameters stored as `_internal_params` on task creation
(`unified_upload_endpoint`, src/main.py lines 1216-1221); the `url` string is
irrelevant to the progress model and omitted. -/
structure TaskParams where
  upload_video : Bool
  extract_subtitle : Bool
  upload_subtitle : Bool
deriving DecidableEq, Repr

/-- Python `int(x)`: truncation toward zero on an exact rational. -/
def truncInt (x : ℚ) : ℤ := if 0 ≤ x then ⌊x⌋ else ⌈x⌉

/-- Dict lookup on an association list (`d[k]` / `k in d` for the
`active_weights` dict). -/
def lookupQ : List (String × ℚ) → String → Option ℚ
  | [], _ => none
  | p :: ps, s => if p.1 = s then some p.2 else lookupQ ps s

/-- Dict lookup on a string-keyed association list. -/
def lookupS : List (String × String) → String → Option String
  | [], _ => none
  | p :: ps, s => if p.1 = s then some p.2 else lookupS ps s

/-- Python `dict.update`: keys of `new` overwrite, other keys of `old`
survive (used for the key-wise `output` merge at line 1822 of src/main.py). -/
def dictUpdate (old new : List (String × String)) : List (String × String) :=
  old.filter (fun p => (lookupS new p.1).isNone) ++ new

/-- `active_weights` as built once in `TaskProgressModel.__init__`
(src/main.py lines 1733-1751): `video_upload` (40) iff `upload_video`;
`subtitle_pipeline` (30) iff `extract_subtitle`, plus `subtitle_upload` (10)
iff additionally `upload_subtitle`; and `download` (20) iff any of the
above is present. -/
def activeWeightsList (params : TaskParams) : List (String × ℚ) :=
  let aw1 : List (String × ℚ) :=
    if params.upload_video then [("video_upload", 40)] else []
  let aw2 : List (String × ℚ) :=
    if params.extract_subtitle then
      ("subtitle_pipeline", 30) ::
        (if params.upload_subtitle then [("subtitle_upload", 10)] else [])
    else []
  let aw := aw1 ++ aw2
  if aw.isEmpty then aw else aw ++ [("download", 20)]

/-- `self.total_active_weight = sum(...)`, with the zero fallback to 100
(src/main.py lines 1753-1754). -/
def totalActiveWeight (params : TaskParams) : ℚ :=
  let s := ((activeWeightsList params).map Prod.snd).sum
  if s = 0 then 100 else s

/-- State of the per-task `TaskProgressModel` (src/main.py lines 1724-1789).
`last_known_stage_progress` is the stage-fraction dict (default 0.0),
`completedStages` the `_completed_stages` set. -/
structure TaskProgressModel where
  params : TaskParams
  completed_weight : ℚ
  completedStages : List String
  last_known_stage_progress : String → ℚ
  active_weights : List (String × ℚ)
  total_active_weight : ℚ

namespace TaskProgressModel

/-- `TaskProgressModel.__init__(params)`. -/
def init (params : TaskParams) : TaskProgressModel :=
  { params := params
    completed_weight := 0
    completedStages := []
    last_known_stage_progress := fun _ => 0
    active_weights := activeWeightsList params
    total_active_weight := totalActiveWeight params }

/-- `_mark_stage_as_completed` (src/main.py lines 1763-1766): move the
stage's full weight into `completed_weight`, only for an active stage not
yet completed. -/
def markStageCompleted (m : TaskProgressModel) (stage : String) : TaskProgressModel :=
  match lookupQ m.active_weights stage with
  | some w =>
      if stage ∈ m.completedStages then m
      else { m with completed_weight := m.completed_weight + w
                    completedStages := stage :: m.completedStages }
  | none => m

/-- `_update_stage_progress` (src/main.py lines 1756-1761): ignore a
fraction below the stage's last recorded one; at ≥ 1.0 also complete the
stage. -/
def updateStageProgress (m : TaskProgressModel) (stage : String) (percent : ℚ) :
    TaskProgressModel :=
  if m.last_known_stage_progress stage ≤ percent then
    let m' := { m with last_known_stage_progress :=
                  fun s => if s = stage then percent else m.last_known_stage_progress s }
    if 1 ≤ percent then m'.markStageCompleted stage else m'
  else m

/-- The running contribution of the not-yet-completed active stages
(the loop of `get_total_progress`, src/main.py lines 1769-1773). -/
def stageContribution (aw : List (String × ℚ)) (completed : List String)
    (last : String → ℚ) : ℚ :=
  ((aw.filter fun p => p.1 ∉ completed).map fun p => p.2 * last p.1).sum

/-- `get_total_progress` (src/main.py lines 1768-1777):
`min(int(total/total_active_weight*100), 100)`. -/
def get_total_progress (m : TaskProgressModel) : ℤ :=
  let contribution :=
    stageContribution m.active_weights m.completedStages m.last_known_stage_progress
  let total := m.completed_weight + contribution
  min (truncInt (total / m.total_active_weight * 100)) 100

/-- `update_from_event` (src/main.py lines 1779-1789): a terminal component
status completes the matching stage; a terminal non-skipped subtitle with
`upload_subtitle` requested additionally completes `subtitle_upload`. -/
def update_from_event (m : TaskProgressModel) (component : String)
    (status : Option CompStatus) : TaskProgressModel :=
  match status with
  | none => m
  | some s =>
      if s = .PENDING ∨ s = .RUNNING then m
      else if component = "video" then
        m.updateStageProgress "video_upload" 1
      else if component = "subtitle" then
        let m1 := m.updateStageProgress "subtitle_pipeline" 1
        if m.params.upload_subtitle ∧ s ≠ .SKIPPED then
          m1.updateStageProgress "subtitle_upload" 1
        else m1
      else m

/-- The raw weighted total the normalization divides
(`self.completed_weight + current_progress_contribution`). -/
def rawTotal (m : TaskProgressModel) : ℚ :=
  m.completed_weight +
    stageContribution m.active_weights m.completedStages m.last_known_stage_progress

/-- Well-formedness holding for every model the aggregator can reach:
distinct active-stage keys, positive weights, positive normalizer,
nonnegative accumulator and fractions, and fractions of incomplete active
stages not above 1. -/
def WF (m : TaskProgressModel) : Prop :=
  (m.active_weights.map Prod.fst).Nodup ∧
  (∀ p ∈ m.active_weights, 0 < p.2) ∧
  0 < m.total_active_weight ∧
  0 ≤ m.completed_weight ∧
  (∀ s, 0 ≤ m.last_known_stage_progress s) ∧
  (∀ p ∈ m.active_weights, p.1 ∉ m.completedStages →
    m.last_known_stage_progress p.1 ≤ 1)

end TaskProgressModel

/-- Whether a component status is neither `PENDING` nor `RUNNING`
(the `is_finished` test at line 1843 of src/main.py). -/
def CompStatus.settled : CompStatus → Bool
  | .PENDING => false
  | .RUNNING => false
  | _ => true

/-- One per-component entry of `tasks[..]['results']`
(`unified_upload_endpoint`, src/main.py lines 1230-1243). -/
structure ComponentResult where
  status : CompStatus
  details : String
  output : Option (List (String × String))
  error : Option String
deriving DecidableEq, Repr

/-- The partial `data` dict of a `component_update` event
(`_update_component_status`, src/main.py lines 1404-1410): any subset of
the four keys may be present. -/
structure UpdateData where
  status : Option CompStatus := none
  details : Option String := none
  output : Option (List (String × String)) := none
  error : Option String := none
deriving DecidableEq, Repr

/-- The component merge of the aggregator (src/main.py lines 1819-1825):
if the event carries `output` and the stored `output` is a dict, merge it
key-wise and drop `output` from `data`; then `dict.update` with the
remaining keys (present keys replace, absent keys survive). The initial
stored `output` is `None`, so the first `output` event replaces it whole. -/
def applyComponentUpdate (c : ComponentResult) (data : UpdateData) : ComponentResult :=
  match data.output, c.output with
  | some o, some d =>
      { status := data.status.getD c.status
        details := data.details.getD c.details
        output := some (dictUpdate d o)
        error := match data.error with | some v => some v | none => c.error }
  | some o, none =>
      { status := data.status.getD c.status
        details := data.details.getD c.details
        output := some o
        error := match data.error with | some v => some v | none => c.error }
  | none, _ =>
      { status := data.status.getD c.status
        details := data.details.getD c.details
        output := c.output
        error := match data.error with | some v => some v | none => c.error }

/-- A task-registry entry as created by `unified_upload_endpoint`
(src/main.py lines 1225-1250); timestamps are not modelled. -/
structure Task where
  status : TaskStatus
  progress : ℤ
  error : Option String
  video : ComponentResult
  subtitle : ComponentResult
  params : TaskParams
deriving DecidableEq, Repr

/-- The initial registry entry (src/main.py lines 1225-1250). -/
def initialTask (params : TaskParams) : Task :=
  { status := .QUEUED
    progress := 0
    error := none
    video :=
      { status := if params.upload_video then .PENDING else .SKIPPED
        details := if params.upload_video then "等待处理" else "用户未请求此操作"
        output := none
        error := none }
    subtitle :=
      { status := if params.extract_subtitle then .PENDING else .SKIPPED
        details := if params.extract_subtitle then "等待处理" else "用户未请求此操作"
        output := none
        error := none }
    params := params }

/-- The three raw event shapes put on the result queue by the workers
(src/main.py lines 1405-1421, 1537, 1579-1596). -/
inductive Event where
  | progressEvent (stage : String) (percent : ℚ)
  | componentUpdate (component : String) (data : UpdateData)
  | taskFailed (error : String)
deriving DecidableEq, Repr

/-- The aggregator's state for one task id: the registry entry (`none` for
an unknown id), the lazily created progress model, how many times the
terminal-evaluation cleanup branch (model discard + temp-dir removal,
src/main.py lines 1864-1873) has run, and the model's `get_total_progress`
observed at the moment of that cleanup. The last two fields are pure
observations added for the proofs; they influence nothing. -/
structure AggState where
  task : Option Task
  model : Option TaskProgressModel
  cleanups : ℕ
  lastEvalTotal : Option ℤ

/-- The `RUNNING`-to-`FAILED` forcing of the terminal evaluation
(src/main.py lines 1850-1852). -/
def forceFail (c : ComponentResult) : ComponentResult :=
  if c.status = .RUNNING then { c with status := .FAILED } else c

/-- The final-status computation (src/main.py lines 1854-1860) over the
non-`SKIPPED` component statuses. -/
def finalStatus (vs ss : CompStatus) : TaskStatus :=
  let active := [vs, ss].filter (· ≠ .SKIPPED)
  if active.isEmpty then .SUCCESS
  else if active.all (· = .SUCCESS) then .SUCCESS
  else if active.contains .FAILED then
    if active.contains .SUCCESS then .PS else .FAILED
  else .SUCCESS

/-- The event dispatch of the aggregator (src/main.py lines 1811-1832):
a progress event feeds the model; a component update merges into the
matching component (unknown components are ignored) and notifies the
model of a possibly terminal status; a fatal event sets the task FAILED
with progress 100 directly. -/
def dispatchEvent (task0 : Task) (model : Option TaskProgressModel) (e : Event) :
    Task × Option TaskProgressModel :=
  match e with
  | .progressEvent stage percent =>
      (task0,
        match model with
        | some m => some (m.updateStageProgress stage percent)
        | none => none)
  | .componentUpdate comp data =>
      if comp = "video" then
        ({ task0 with video := applyComponentUpdate task0.video data },
          match model with
          | some m => some (m.update_from_event comp data.status)
          | none => none)
      else if comp = "subtitle" then
        ({ task0 with subtitle := applyComponentUpdate task0.subtitle data },
          match model with
          | some m => some (m.update_from_event comp data.status)
          | none => none)
      else (task0, model)
  | .taskFailed err =>
      ({ task0 with status := .FAILED, error := some err, progress := 100 }, model)

/-- The non-terminal status/progress refresh (src/main.py lines 1834-1838). -/
def refreshProgress (task1 : Task) (model1 : Option TaskProgressModel) : Task :=
  if task1.status.isTerminal then task1
  else
    match model1 with
    | some m => { task1 with status := .RUNNING, progress := m.get_total_progress }
    | none => { task1 with status := .RUNNING }

/-- Guard of the terminal evaluation (src/main.py lines 1843-1845). -/
def evalReady (t : Task) : Prop :=
  t.video.status.settled = true ∧ t.subtitle.status.settled = true ∧
    t.status.isTerminal = false

instance (t : Task) : Decidable (evalReady t) := by
  unfold evalReady
  infer_instance

/-- The terminal evaluation body (src/main.py lines 1845-1862): progress
forced to 100, orphaned RUNNING components forced FAILED, final status
computed over the non-skipped components. -/
def finalizeTask (t : Task) : Task :=
  { t with
      progress := 100
      video := forceFail t.video
      subtitle := forceFail t.subtitle
      status := finalStatus (forceFail t.video).status (forceFail t.subtitle).status }

/-- Lazy model creation from `_internal_params` (src/main.py lines
1801-1804; the params dict is always truthy). -/
def ensureModel (st : AggState) (task0 : Task) : Option TaskProgressModel :=
  match st.model with
  | some m => some m
  | none => some (TaskProgressModel.init task0.params)

/-- One iteration of `result_processor_thread_loop` (src/main.py lines
1791-1873) for one dequeued event: the unknown-id guard (1798), lazy model
creation (1801-1804), event dispatch (1811-1832), the non-terminal
progress/status refresh (1834-1838) and the terminal evaluation with its
cleanup (1840-1873). -/
def aggStep (st : AggState) (e : Event) : AggState :=
  match st.task with
  | none => st
  | some task0 =>
    let model := ensureModel st task0
    let dispatched := dispatchEvent task0 model e
    let task2 := refreshProgress dispatched.1 dispatched.2
    if evalReady task2 then
      { task := some (finalizeTask task2)
        model := none
        cleanups := st.cleanups + 1
        lastEvalTotal := dispatched.2.map TaskProgressModel.get_total_progress }
    else
      { st with task := some task2, model := dispatched.2 }

/-- Folding the aggregator over a queue of events for one task. -/
def runAgg (st : AggState) (events : List Event) : AggState :=
  events.foldl aggStep st

/-- The aggregator's state for a freshly created task. -/
def initState (params : TaskParams) : AggState :=
  { task := some (initialTask params), model := none, cleanups := 0,
    lastEvalTotal := none }

/-- The task's `progress` field as a poller would read it. -/
def AggState.taskProgress (st : AggState) : ℤ :=
  (st.task.map Task.progress).getD 0

/-- The task's `status` field as a poller would read it. -/
def AggState.taskStatus (st : AggState) : TaskStatus :=
  (st.task.map Task.status).getD .QUEUED

/-- The successive values of `progress` a poller can observe: one entry
per processed event, starting from the created entry. -/
def progressTrace (params : TaskParams) (events : List Event) : List ℤ :=
  (events.scanl aggStep (initState params)).map AggState.taskProgress

/-- One audio chunk dict `{path, start_ms, end_ms}` as produced by the
segmentation step (src/main.py line 859) and consumed by the batch call. -/
structure Chunk where
  path : String
  start_ms : ℤ
  end_ms : ℤ
deriving DecidableEq, Repr

/-- One `SubtitleLine` of the validated Gemini response
(src/main.py lines 668-671): `end_ms` may be absent. -/
structure SubtitleLine where
  start_ms : ℤ
  end_ms : Option ℤ
  text : String
deriving DecidableEq, Repr

/-- One element of the `thread_local_srt_list` built at line 971: the
fields that determine the formatted `srt_line` (timestamps and text) are
kept explicit; whitespace-stripping of `text` is not modelled. -/
structure SrtBlock where
  start_ms : ℤ
  end_ms : ℤ
  text : String
deriving DecidableEq, Repr

/-- The end-offset resolution for the `i`-th subtitle of a successful
batch (src/main.py lines 962-968): an absent `end_ms` becomes the next
subtitle's `start_ms`, or the batch's last chunk `end_ms` for the final
subtitle; then an end before its start is clamped to `start_ms + 250`. -/
def resolveEndMs (subs : List SubtitleLine) (lastChunkEnd : ℤ) (i : ℕ) : ℤ :=
  let s := subs.getD i ⟨0, none, ""⟩
  let pre : ℤ :=
    match s.end_ms with
    | some e => e
    | none =>
        if i + 1 < subs.length then (subs.getD (i + 1) ⟨0, none, ""⟩).start_ms
        else lastChunkEnd
  if pre < s.start_ms then s.start_ms + 250 else pre

/-- The per-batch result list built by the loop at lines 960-971:
one block per subtitle, with the resolved end offset. `chunk_group[-1]`
is taken with a default for the (unreachable) empty group. -/
def batchBlocks (chunkGroup : List Chunk) (subs : List SubtitleLine) : List SrtBlock :=
  (List.range subs.length).map fun i =>
    { start_ms := (subs.getD i ⟨0, none, ""⟩).start_ms
      end_ms := resolveEndMs subs ((chunkGroup.getLast?.map Chunk.end_ms).getD 0) i
      text := (subs.getD i ⟨0, none, ""⟩).text }

/-- The classified outcome of one attempt of the Gemini call (the body of
the retry loop, src/main.py lines 925-975). `ok` is a 2xx response parsed
and validated; each other constructor is one of the exception classes
caught at line 976: `httpError` covers both the explicit raise for
429/500/503/504 (line 933) and `raise_for_status()` for any other non-2xx
status (line 936), `networkError` the other `RequestException`s,
`invalidResponse` the `ValueError` raises at lines 943/949/953, and
`validationFailure` the `pydantic.ValidationError` of line 956. -/
inductive AttemptOutcome where
  | ok (subs : List SubtitleLine)
  | httpError (code : ℕ)
  | networkError
  | invalidResponse
  | validationFailure
deriving DecidableEq, Repr

/-- Whether an attempt outcome is the success case. -/
def AttemptOutcome.isOk : AttemptOutcome → Bool
  | .ok _ => true
  | _ => false

/-- `max_retries = 3` (src/main.py line 921). -/
def SUBTITLE_MAX_RETRIES : ℕ := 3

/-- The HTTP statuses the source labels retryable (line 930); the code
path for every other non-2xx status still ends in the same caught
`HTTPError`. -/
def retryableHttpCodes : List ℕ := [429, 500, 503, 504]

/-- Observable behaviour of one `_process_subtitle_batch_with_ai` call:
its returned blocks or the final `RuntimeError` (line 990), with the
number of attempts performed and the backoff waits slept (line 981). -/
structure BatchCallResult where
  result : Except String (List SrtBlock)
  attemptsMade : ℕ
  waits : List ℕ
deriving Repr

/-- The retry loop of `_process_subtitle_batch_with_ai` (src/main.py lines
924-990), with `attempts i` the classified outcome of the `i`-th call of
the external API: a success returns the resolved blocks at once; every
caught failure sleeps `5 * 2^attempt` and retries while attempts remain;
the loop ends in the `RuntimeError` raise of line 990. `fuel` counts the
remaining attempts (initially `max_retries`). -/
def batchRetryLoop (chunkGroup : List Chunk) (attempts : ℕ → AttemptOutcome)
    (attempt : ℕ) : (fuel : ℕ) → BatchCallResult
  | 0 => { result := .error "batch failed", attemptsMade := 0, waits := [] }
  | fuel + 1 =>
    match attempts attempt with
    | .ok subs =>
        { result := .ok (batchBlocks chunkGroup subs), attemptsMade := 1, waits := [] }
    | _ =>
        if fuel = 0 then
          { result := .error "batch failed", attemptsMade := 1, waits := [] }
        else
          let r := batchRetryLoop chunkGroup attempts (attempt + 1) fuel
          { result := r.result
            attemptsMade := r.attemptsMade + 1
            waits := 5 * 2 ^ attempt :: r.waits }

/-- `_process_subtitle_batch_with_ai` (src/main.py lines 919-996). -/
def processSubtitleBatch (chunkGroup : List Chunk)
    (attempts : ℕ → AttemptOutcome) : BatchCallResult :=
  batchRetryLoop chunkGroup attempts 0 SUBTITLE_MAX_RETRIES

/-- `SUBTITLE_BATCH_SIZE = 40` (src/main.py line 127). -/
def SUBTITLE_BATCH_SIZE : ℕ := 40

/-- `chunk_groups = [chunk_files[i:i+SIZE] for i in range(0, N, SIZE)]`
(src/main.py line 1016): contiguous slices in original order. -/
def chunkGroups : List Chunk → List (List Chunk)
  | [] => []
  | c :: cs =>
      (c :: cs).take SUBTITLE_BATCH_SIZE ::
        chunkGroups ((c :: cs).drop SUBTITLE_BATCH_SIZE)
termination_by l => l.length
decreasing_by simp [SUBTITLE_BATCH_SIZE]; omega

/-- The collection loop over completed futures (src/main.py lines
1050-1082): a successful batch extends `all_srt_blocks` (`if result:` -
an empty success contributes nothing); failed or timed-out batches are
skipped. `completed` lists the batch results in completion order, which
`as_completed` does not guarantee to be submission order. -/
def collectBlocks (completed : List (Except String (List SrtBlock))) : List SrtBlock :=
  completed.foldl
    (fun acc r =>
      match r with
      | .ok blocks => if blocks.isEmpty then acc else acc ++ blocks
      | .error _ => acc)
    []

/-- `all_srt_blocks.sort(key=lambda x: x["start_ms"])` (line 1092). -/
def sortBlocks (blocks : List SrtBlock) : List SrtBlock :=
  blocks.mergeSort (fun a b => a.start_ms ≤ b.start_ms)

/-- The data flow of `run_subtitle_extraction_pipeline` (src/main.py lines
998-1099) after the batch calls resolved: empty input returns the empty
transcript at line 1014; if no blocks survived, the empty transcript of
line 1090; otherwise the blocks sorted by start offset (the returned SRT
string of lines 1092-1099 is their rendering, one numbered entry per
block, so the empty transcript corresponds exactly to `[]`). -/
def runPipelineBlocks (chunkFiles : List Chunk)
    (completed : List (Except String (List SrtBlock))) : List SrtBlock :=
  if chunkFiles.isEmpty then []
  else
    let blocks := collectBlocks completed
    if blocks.isEmpty then [] else sortBlocks blocks

/-- Success payload of an attempt outcome (`[]` for failures). -/
def AttemptOutcome.subsOrNil : AttemptOutcome → List SubtitleLine
  | .ok subs => subs
  | _ => []

/-- Index of the first successful attempt within the retry budget, as the
spec describes the loop: the call is retried until it succeeds or the
limit is reached. -/
def specFirstSuccess (attempts : ℕ → AttemptOutcome) : Option ℕ :=
  (List.range SUBTITLE_MAX_RETRIES).find? fun i => (attempts i).isOk

/-- The spec-side description of one batch call: the first success within
`max_retries` attempts returns its resolved blocks after `k` backoff waits
of `5 * 2^attempt` seconds; with no success the call raises after
`max_retries` attempts. -/
def specRetryResult (g : List Chunk) (attempts : ℕ → AttemptOutcome) : BatchCallResult :=
  match specFirstSuccess attempts with
  | some k =>
      { result := .ok (batchBlocks g (attempts k).subsOrNil)
        attemptsMade := k + 1
        waits := (List.range k).map fun i => 5 * 2 ^ i }
  | none =>
      { result := .error "batch failed"
        attemptsMade := SUBTITLE_MAX_RETRIES
        waits := (List.range (SUBTITLE_MAX_RETRIES - 1)).map fun i => 5 * 2 ^ i }

/-- The end-to-end subtitle extraction for given per-batch attempt
outcomes: batch `b` of the partition is processed by
`_process_subtitle_batch_with_ai` with attempt outcomes `attemptsFor b`,
and the pipeline collects the per-batch results. -/
def pipelineFromAttempts (chunkFiles : List Chunk)
    (attemptsFor : ℕ → ℕ → AttemptOutcome) : List SrtBlock :=
  runPipelineBlocks chunkFiles
    ((List.range (chunkGroups chunkFiles).length).map fun b =>
      (processSubtitleBatch ((chunkGroups chunkFiles).getD b []) (attemptsFor b)).result)

/-- Modelled from the claim's wording: the exact rational value the claim
says `get_total()` rounds, `100 * (completed_weight +
Σ_active_incomplete(weight × last_fraction)) / Σ_active_weight`. -/
def specProgressExpr (m : TaskProgressModel) : ℚ :=
  100 * (m.completed_weight +
    TaskProgressModel.stageContribution m.active_weights m.completedStages
      m.last_known_stage_progress) / m.total_active_weight

/-- The claim's asserted result: that expression rounded to the nearest
integer, clamped to [0, 100]. -/
def specRoundTotal (m : TaskProgressModel) : ℤ :=
  min (max (round (specProgressExpr m)) 0) 100

/-- Invariant for the cleanup counter: it is at most 1, and it is 1 only
once the task is terminal (so the guarded cleanup branch cannot fire
again). -/
def Inv9 (st : AggState) : Prop :=
  st.cleanups ≤ 1 ∧
    (st.cleanups = 1 → ∃ t, st.task = some t ∧ t.status.isTerminal = true)

/-- How one event rewrites one component's status under the aggregator's
merge: a `component_update` for that component carrying a status replaces
it outright, everything else leaves it alone. -/
def stepComp (c : String) (e : Event) (old : CompStatus) : CompStatus :=
  match e with
  | .componentUpdate c' d => if c' = c then d.status.getD old else old
  | _ => old

/-- The component status after a sequence of events is that of the last
applied update carrying a status (last writer wins). -/
def lastWrittenStatus (c : String) (events : List Event) (start : CompStatus) :
    CompStatus :=
  events.foldl (fun acc e => stepComp c e acc) start

/-- The canonical completion sequence: the download finishes, then each
component reports a terminal status. -/
def terminalEvts (sv ss : CompStatus) : List Event :=
  [.progressEvent "download" 1,
   .componentUpdate "video" { status := some sv },
   .componentUpdate "subtitle" { status := some ss }]

/-- The aggregator invariant behind monotonic progress: the entry exists,
its progress is within [0, 100], is 100 once the status is terminal, any
held model is well formed, and while non-terminal the progress never
exceeds what the current model would report (with no model yet it is
still 0). -/
def InvC1 (st : AggState) : Prop :=
  ∃ t, st.task = some t ∧
    0 ≤ t.progress ∧ t.progress ≤ 100 ∧
    (t.status.isTerminal = true → t.progress = 100) ∧
    (∀ m, st.model = some m → m.WF) ∧
    (t.status.isTerminal = false →
      (st.model = none → t.progress = 0) ∧
      (∀ m, st.model = some m → t.progress ≤ m.get_total_progress))

/-- A successful attempt returns at once. -/
lemma batchRetryLoop_of_ok {attempts : ℕ → AttemptOutcome} {a : ℕ}
    {subs : List SubtitleLine} (g : List Chunk) (fuel : ℕ)
    (h : attempts a = .ok subs) :
    batchRetryLoop g attempts a (fuel + 1) =
      { result := .ok (batchBlocks g subs), attemptsMade := 1, waits := [] } := by
  simp [batchRetryLoop, h]

/-- A failed attempt with attempts remaining sleeps `5 * 2^attempt` and
recurses. -/
lemma batchRetryLoop_of_fail {attempts : ℕ → AttemptOutcome} {a : ℕ}
    (g : List Chunk) (fuel : ℕ) (h : (attempts a).isOk = false) :
    batchRetryLoop g attempts a (fuel + 2) =
      { result := (batchRetryLoop g attempts (a + 1) (fuel + 1)).result
        attemptsMade := (batchRetryLoop g attempts (a + 1) (fuel + 1)).attemptsMade + 1
        waits := 5 * 2 ^ a :: (batchRetryLoop g attempts (a + 1) (fuel + 1)).waits } := by
  cases ha : attempts a <;> simp_all [batchRetryLoop, AttemptOutcome.isOk]

/-- A failed final attempt ends in the `RuntimeError`. -/
lemma batchRetryLoop_of_fail_last {attempts : ℕ → AttemptOutcome} {a : ℕ}
    (g : List Chunk) (h : (attempts a).isOk = false) :
    batchRetryLoop g attempts a 1 =
      { result := .error "batch failed", attemptsMade := 1, waits := [] } := by
  cases ha : attempts a <;> simp_all [batchRetryLoop, AttemptOutcome.isOk]

/-- A successful outcome is `ok` of its payload. -/
lemma AttemptOutcome.eq_ok_of_isOk {a : AttemptOutcome} (h : a.isOk = true) :
    a = .ok a.subsOrNil := by
  cases a <;> simp_all [AttemptOutcome.isOk, AttemptOutcome.subsOrNil]

/-- Every attempt failing exhausts the three attempts and raises. -/
lemma processBatch_all_fail {attempts : ℕ → AttemptOutcome}
    (h : ∀ i < 3, (attempts i).isOk = false) (g : List Chunk) :
    processSubtitleBatch g attempts =
      { result := .error "batch failed", attemptsMade := 3, waits := [5, 10] } := by
  have h0 := h 0 (by norm_num)
  have h1 := h 1 (by norm_num)
  have h2 := h 2 (by norm_num)
  show batchRetryLoop g attempts 0 3 = _
  cases ha0 : attempts 0 <;> cases ha1 : attempts 1 <;> cases ha2 : attempts 2 <;>
    simp_all [batchRetryLoop, AttemptOutcome.isOk]

/-- Folding the collection step over failed results changes nothing. -/
lemma collectFold_all_error (rs : List (Except String (List SrtBlock)))
    (acc : List SrtBlock) (h : ∀ r ∈ rs, ∃ msg, r = .error msg) :
    rs.foldl
      (fun acc r =>
        match r with
        | .ok blocks => if blocks.isEmpty then acc else acc ++ blocks
        | .error _ => acc) acc = acc := by
  induction rs generalizing acc with
  | nil => rfl
  | cons r rs ih =>
      obtain ⟨msg, rfl⟩ := h r (List.mem_cons_self r rs)
      exact ih acc fun r hr => h r (List.mem_cons_of_mem _ hr)

/-- C10 (confirmed): an event for a task id with no registry entry is
discarded without effect: the registry entry stays absent, no progress
model is created, and the whole aggregator state is unchanged
(src/main.py line 1798). -/
theorem C10_unknown_task_event_no_effect (mdl : Option TaskProgressModel)
    (k : ℕ) (lt : Option ℤ) (e : Event) :
    aggStep { task := none, model := mdl, cleanups := k, lastEvalTotal := lt } e =
      { task := none, model := mdl, cleanups := k, lastEvalTotal := lt } := rfl

/-- C5 (corrected) counterexample: an HTTP 404 - a client-error status
outside the source's retryable set {429, 500, 503, 504} - does not fail
immediately: the call is still attempted 3 times with backoff waits of 5
and 10 seconds before the failure is raised. -/
theorem C5_counterexample_client_error_is_retried :
    404 ∉ retryableHttpCodes ∧
      processSubtitleBatch [] (fun _ => .httpError 404) =
        { result := .error "batch failed", attemptsMade := 3, waits := [5, 10] } :=
  ⟨by decide, rfl⟩

/-- C5 (corrected, amended): every caught failure class (network error,
any non-2xx HTTP status, malformed/empty response, validation failure) is
treated uniformly: the call is retried up to `max_retries = 3` attempts
with exponential backoff `5 * 2^attempt` between consecutive attempts,
succeeding at the first successful attempt and raising after the third
failure; no failure class fails immediately. -/
theorem C5_retry_loop_behaviour (g : List Chunk) (attempts : ℕ → AttemptOutcome) :
    processSubtitleBatch g attempts = specRetryResult g attempts := by
  show batchRetryLoop g attempts 0 3 = _
  cases ha0 : attempts 0 <;> cases ha1 : attempts 1 <;> cases ha2 : attempts 2 <;>
    simp [batchRetryLoop, specRetryResult, specFirstSuccess, SUBTITLE_MAX_RETRIES,
      show List.range 3 = [0, 1, 2] from rfl, List.find?, ha0, ha1, ha2,
      AttemptOutcome.isOk, AttemptOutcome.subsOrNil, List.range_succ]

/-- C6 (confirmed): a single batch whose three attempts are all exhausted
ends in a raised exception - never an empty list standing for failure -
while the top-level pipeline, when every batch fails, returns the empty
transcript to its caller instead of raising. -/
theorem C6_failure_contract (chunkFiles : List Chunk)
    (attemptsFor : ℕ → ℕ → AttemptOutcome)
    (h : ∀ b i, (attemptsFor b i).isOk = false) :
    (∀ b g, (processSubtitleBatch g (attemptsFor b)).result =
        .error "batch failed") ∧
      pipelineFromAttempts chunkFiles attemptsFor = [] := by
  have hbatch : ∀ b g, processSubtitleBatch g (attemptsFor b) =
      { result := .error "batch failed", attemptsMade := 3, waits := [5, 10] } :=
    fun b g => processBatch_all_fail (fun i _ => h b i) g
  refine ⟨fun b g => by rw [hbatch b g], ?_⟩
  unfold pipelineFromAttempts runPipelineBlocks
  split
  · rfl
  · have hcol : collectBlocks
        ((List.range (chunkGroups chunkFiles).length).map fun b =>
          (processSubtitleBatch ((chunkGroups chunkFiles).getD b []) (attemptsFor b)).result)
        = [] := by
      unfold collectBlocks
      refine collectFold_all_error _ _ ?_
      intro r hr
      obtain ⟨b, _, rfl⟩ := List.mem_map.mp hr
      exact ⟨"batch failed", by rw [hbatch]⟩
    simp [List.getD] at hcol
    simp [hcol, sortBlocks]

/-- Concatenating the batches of the partition restores the input. -/
lemma chunkGroups_flatten_aux (n : ℕ) :
    ∀ cf : List Chunk, cf.length ≤ n → (chunkGroups cf).flatten = cf := by
  induction n with
  | zero =>
      intro cf h
      have : cf = [] := List.eq_nil_of_length_eq_zero (Nat.le_zero.mp h)
      subst this; simp [chunkGroups]
  | succ n ih =>
      intro cf h
      match cf with
      | [] => simp [chunkGroups]
      | c :: cs =>
          have h' : cs.length + 1 ≤ n + 1 := by simpa using h
          rw [chunkGroups, List.flatten_cons,
            ih _ (by simp [SUBTITLE_BATCH_SIZE]; omega)]
          exact List.take_append_drop _ _

/-- Concatenating the batches of the partition restores the input. -/
lemma chunkGroups_flatten (cf : List Chunk) : (chunkGroups cf).flatten = cf :=
  chunkGroups_flatten_aux cf.length cf le_rfl

/-- The partition has `ceil(N / 40)` batches. -/
lemma chunkGroups_length_aux (n : ℕ) :
    ∀ cf : List Chunk, cf.length ≤ n →
      (chunkGroups cf).length = (cf.length + 39) / 40 := by
  induction n with
  | zero =>
      intro cf h
      have : cf = [] := List.eq_nil_of_length_eq_zero (Nat.le_zero.mp h)
      subst this; simp [chunkGroups]
  | succ n ih =>
      intro cf h
      match cf with
      | [] => simp [chunkGroups]
      | c :: cs =>
          have h' : cs.length + 1 ≤ n + 1 := by simpa using h
          rw [chunkGroups, List.length_cons,
            ih _ (by simp [SUBTITLE_BATCH_SIZE]; omega)]
          simp only [List.length_drop, List.length_cons, SUBTITLE_BATCH_SIZE]
          omega

/-- The partition has `ceil(N / 40)` batches. -/
lemma chunkGroups_length (cf : List Chunk) :
    (chunkGroups cf).length = (cf.length + 39) / 40 :=
  chunkGroups_length_aux cf.length cf le_rfl

/-- The collection loop concatenates exactly the successful batch
results, in completion order. -/
lemma collectFold_eq (rs : List (Except String (List SrtBlock))) :
    ∀ acc : List SrtBlock,
      rs.foldl
        (fun acc r =>
          match r with
          | .ok blocks => if blocks.isEmpty then acc else acc ++ blocks
          | .error _ => acc) acc = acc ++ (rs.filterMap Except.toOption).flatten := by
  induction rs with
  | nil => intro acc; simp
  | cons r rs ih =>
      intro acc
      cases r with
      | error msg =>
          simp only [List.foldl_cons]
          rw [ih acc]
          simp [Except.toOption]
      | ok blocks =>
          simp only [List.foldl_cons]
          by_cases hb : blocks = []
          · subst hb
            simp only [List.isEmpty_nil, if_true, ih acc]
            simp [Except.toOption]
          · have hb' : blocks.isEmpty = false := by
              simpa [List.isEmpty_iff] using hb
            simp only [hb', Bool.false_eq_true, if_false, ih (acc ++ blocks)]
            simp [Except.toOption, List.append_assoc]

/-- The collection loop concatenates exactly the successful batch
results, in completion order. -/
lemma collectBlocks_eq_flatten (rs : List (Except String (List SrtBlock))) :
    collectBlocks rs = (rs.filterMap Except.toOption).flatten := by
  have h := collectFold_eq rs []
  rw [List.nil_append] at h
  exact h

/-- C7 (confirmed): the scheduler partitions the `N` input units into
`ceil(N / batch_size)` contiguous batches preserving the original order
(their concatenation is the input), and for any completion order of the
batch results the final transcript consists of exactly the entries of the
successful batches - none duplicated or dropped (a permutation of their
concatenation) - sorted by `start_ms` ascending. -/
theorem C7_partition_and_reassembly (cf : List Chunk)
    (completed : List (Except String (List SrtBlock))) (hcf : cf ≠ []) :
    (chunkGroups cf).flatten = cf ∧
      (chunkGroups cf).length = (cf.length + SUBTITLE_BATCH_SIZE - 1) / SUBTITLE_BATCH_SIZE ∧
      List.Perm (runPipelineBlocks cf completed)
        ((completed.filterMap Except.toOption).flatten) ∧
      (runPipelineBlocks cf completed).Pairwise
        (fun a b => a.start_ms ≤ b.start_ms) := by
  have hne : cf.isEmpty = false := by
    cases cf with
    | nil => exact absurd rfl hcf
    | cons c cs => rfl
  have hcol := collectBlocks_eq_flatten completed
  refine ⟨chunkGroups_flatten cf, by simpa [SUBTITLE_BATCH_SIZE] using chunkGroups_length cf,
    ?_, ?_⟩
  · unfold runPipelineBlocks
    rw [hne]
    simp only [Bool.false_eq_true, if_false]
    by_cases hb : (collectBlocks completed).isEmpty
    · have h0 : collectBlocks completed = [] := List.isEmpty_iff.mp hb
      rw [hb]
      simp [← hcol, h0]
    · rw [Bool.not_eq_true] at hb
      rw [hb]
      simp only [Bool.false_eq_true, if_false]
      exact (List.mergeSort_perm _ _).trans (hcol ▸ List.Perm.refl _)
  · unfold runPipelineBlocks
    rw [hne]
    simp only [Bool.false_eq_true, if_false]
    by_cases hb : (collectBlocks completed).isEmpty
    · rw [hb]; simp
    · rw [Bool.not_eq_true] at hb
      rw [hb]
      simp only [Bool.false_eq_true, if_false]
      have hs := @List.sorted_mergeSort SrtBlock
        (fun a b : SrtBlock => decide (a.start_ms ≤ b.start_ms))
        (fun a b c hab hbc => by
          simp only [decide_eq_true_eq] at *
          exact le_trans hab hbc)
        (fun a b => by
          simp only [Bool.or_eq_true, decide_eq_true_eq]
          exact le_total _ _)
        (collectBlocks completed)
      exact hs.imp (by simp)

/-- C8 (confirmed): in a successful batch, each produced entry keeps its
subtitle's start offset, and its end offset is resolved per the source's
policy: an absent end offset becomes the next subtitle's start offset -
or, for the final entry, the end offset of the batch's last work unit -
and any computed end offset that precedes its start offset is clamped to
`start_ms + 250`; consequently the resolved end never precedes the start. -/
theorem C8_end_offset_resolution (g : List Chunk) (subs : List SubtitleLine)
    (i : ℕ) (h : i < subs.length) :
    (batchBlocks g subs).length = subs.length ∧
      ((batchBlocks g subs).getD i ⟨0, 0, ""⟩).start_ms =
        (subs.getD i ⟨0, none, ""⟩).start_ms ∧
      ((batchBlocks g subs).getD i ⟨0, 0, ""⟩).end_ms =
        (let s := subs.getD i ⟨0, none, ""⟩
         let raw : ℤ :=
           match s.end_ms with
           | some e => e
           | none =>
               if i + 1 < subs.length then (subs.getD (i + 1) ⟨0, none, ""⟩).start_ms
               else (g.getLast?.map Chunk.end_ms).getD 0
         if raw < s.start_ms then s.start_ms + 250 else raw) ∧
      (subs.getD i ⟨0, none, ""⟩).start_ms ≤
        ((batchBlocks g subs).getD i ⟨0, 0, ""⟩).end_ms := by
  have hget : (batchBlocks g subs).getD i ⟨0, 0, ""⟩ =
      { start_ms := (subs.getD i ⟨0, none, ""⟩).start_ms
        end_ms := resolveEndMs subs ((g.getLast?.map Chunk.end_ms).getD 0) i
        text := (subs.getD i ⟨0, none, ""⟩).text } := by
    simp [batchBlocks, List.getD, h]
  refine ⟨by simp [batchBlocks], by rw [hget], by rw [hget]; rfl, ?_⟩
  rw [hget]
  show (subs.getD i ⟨0, none, ""⟩).start_ms ≤ resolveEndMs subs _ i
  unfold resolveEndMs
  rcases he : (subs.getD i ⟨0, none, ""⟩).end_ms with _ | e <;>
    simp only [he] <;> repeat' split
  all_goals omega

/-- A successful dict lookup is a membership. -/
lemma lookupQ_some_mem : ∀ {l : List (String × ℚ)} {s : String} {w : ℚ},
    lookupQ l s = some w → (s, w) ∈ l := by
  intro l
  induction l with
  | nil => intro s w h; simp [lookupQ] at h
  | cons p ps ih =>
      intro s w h
      obtain ⟨a, b⟩ := p
      rw [lookupQ] at h
      by_cases hp : a = s
      · subst hp
        simp only [if_pos rfl] at h
        obtain rfl := Option.some_injective _ h
        exact List.mem_cons_self _ _
      · simp only [hp, if_neg, ite_false] at h
        exact List.mem_cons_of_mem _ (ih h)

/-- A failed dict lookup means the key is absent. -/
lemma lookupQ_none_not_mem : ∀ {l : List (String × ℚ)} {s : String},
    lookupQ l s = none → ∀ p ∈ l, p.1 ≠ s := by
  intro l
  induction l with
  | nil => intro s _ p hp; simp at hp
  | cons q qs ih =>
      intro s h p hp
      rw [lookupQ] at h
      by_cases hq : q.1 = s
      · rw [if_pos hq] at h; exact absurd h (by simp)
      · rw [if_neg hq] at h
        rcases List.mem_cons.mp hp with rfl | hmem
        · exact hq
        · exact ih h p hmem

namespace TaskProgressModel

/-- The contribution of the empty weight table. -/
lemma stageContribution_nil (completed : List String) (last : String → ℚ) :
    stageContribution [] completed last = 0 := rfl

/-- A completed head stage contributes nothing. -/
lemma stageContribution_cons_of_mem {p : String × ℚ} (ps : List (String × ℚ))
    {completed : List String} (last : String → ℚ) (h : p.1 ∈ completed) :
    stageContribution (p :: ps) completed last =
      stageContribution ps completed last := by
  unfold stageContribution
  rw [List.filter_cons]
  simp [h]

/-- An incomplete head stage contributes its weighted fraction. -/
lemma stageContribution_cons_of_not_mem {p : String × ℚ} (ps : List (String × ℚ))
    {completed : List String} (last : String → ℚ) (h : p.1 ∉ completed) :
    stageContribution (p :: ps) completed last =
      p.2 * last p.1 + stageContribution ps completed last := by
  unfold stageContribution
  rw [List.filter_cons]
  simp [h]

/-- The contribution only reads the fractions of incomplete active stages. -/
lemma stageContribution_congr_last (aw : List (String × ℚ))
    (completed : List String) {f g : String → ℚ}
    (h : ∀ p ∈ aw, p.1 ∉ completed → f p.1 = g p.1) :
    stageContribution aw completed f = stageContribution aw completed g := by
  unfold stageContribution
  congr 1
  apply List.map_congr_left
  intro q hq
  rw [h q (List.mem_of_mem_filter hq) (by simpa using List.of_mem_filter hq)]

/-- The contribution only reads membership in the completed set. -/
lemma stageContribution_congr_completed (aw : List (String × ℚ))
    {completed completed' : List String} (last : String → ℚ)
    (h : ∀ p ∈ aw, (p.1 ∈ completed ↔ p.1 ∈ completed')) :
    stageContribution aw completed last = stageContribution aw completed' last := by
  unfold stageContribution
  congr 2
  apply List.filter_congr
  intro q hq
  simp [h q hq]

/-- The incomplete-stage contribution is nonnegative for nonnegative
weights and fractions. -/
lemma stageContribution_nonneg (aw : List (String × ℚ)) (completed : List String)
    (last : String → ℚ) (hw : ∀ p ∈ aw, 0 ≤ p.2) (hl : ∀ s, 0 ≤ last s) :
    0 ≤ stageContribution aw completed last := by
  apply List.sum_nonneg
  intro x hx
  obtain ⟨p, hp, rfl⟩ := List.mem_map.mp hx
  exact mul_nonneg (hw p (List.mem_of_mem_filter hp)) (hl p.1)

/-- The contribution is monotone in the per-stage fractions. -/
lemma stageContribution_mono_last (aw : List (String × ℚ)) (completed : List String)
    {last last' : String → ℚ} (hw : ∀ p ∈ aw, 0 ≤ p.2)
    (h : ∀ s, last s ≤ last' s) :
    stageContribution aw completed last ≤ stageContribution aw completed last' := by
  apply List.sum_le_sum
  intro p hp
  exact mul_le_mul_of_nonneg_left (h p.1) (hw p (List.mem_of_mem_filter hp))

/-- Completing a stage removes exactly its term from the contribution. -/
lemma stageContribution_cons_completed :
    ∀ (aw : List (String × ℚ)) {s : String} {w : ℚ} (completed : List String)
      (last : String → ℚ), ((aw.map Prod.fst).Nodup) → (s, w) ∈ aw →
      s ∉ completed →
      stageContribution aw (s :: completed) last =
        stageContribution aw completed last - w * last s := by
  intro aw
  induction aw with
  | nil => intro s w completed last _ hmem _; simp at hmem
  | cons p ps ih =>
      intro s w completed last hnd hmem hnc
      have hnd' : (p.1 :: ps.map Prod.fst).Nodup := by simpa using hnd
      obtain ⟨hnd1, hnd2⟩ := List.nodup_cons.mp hnd'
      rcases List.mem_cons.mp hmem with rfl | hmem'
      · have hkeys : ∀ q ∈ ps, q.1 ≠ s := by
          intro q hq hqs
          refine hnd1 ?_
          have : s ∈ ps.map Prod.fst := by
            rw [← hqs]; exact List.mem_map_of_mem Prod.fst hq
          simpa using this
        have hcc : ∀ q ∈ ps, (q.1 ∈ s :: completed ↔ q.1 ∈ completed) :=
          fun q hq => by simp [List.mem_cons, hkeys q hq]
        rw [stageContribution_cons_of_mem ps last (by simp),
          stageContribution_cons_of_not_mem ps last hnc,
          stageContribution_congr_completed ps last hcc]
        ring
      · have hps : p.1 ≠ s := by
          intro hc
          refine hnd1 ?_
          rw [hc]
          exact List.mem_map_of_mem Prod.fst hmem'
        by_cases hpc : p.1 ∈ completed
        · rw [stageContribution_cons_of_mem ps last (by simp [hpc]),
            stageContribution_cons_of_mem ps last hpc,
            ih completed last hnd2 hmem' hnc]
        · rw [stageContribution_cons_of_not_mem ps last (by simp [hpc, hps]),
            stageContribution_cons_of_not_mem ps last hpc,
            ih completed last hnd2 hmem' hnc]
          ring

/-- Raising the fraction of an incomplete active stage shifts the
contribution by exactly its weighted delta. -/
lemma stageContribution_update_last :
    ∀ (aw : List (String × ℚ)) {s : String} {w : ℚ} (completed : List String)
      (last : String → ℚ) (v : ℚ), ((aw.map Prod.fst).Nodup) → (s, w) ∈ aw →
      s ∉ completed →
      stageContribution aw completed (fun t => if t = s then v else last t) =
        stageContribution aw completed last + w * (v - last s) := by
  intro aw
  induction aw with
  | nil => intro s w completed last v _ hmem _; simp at hmem
  | cons p ps ih =>
      intro s w completed last v hnd hmem hnc
      have hnd' : (p.1 :: ps.map Prod.fst).Nodup := by simpa using hnd
      obtain ⟨hnd1, hnd2⟩ := List.nodup_cons.mp hnd'
      rcases List.mem_cons.mp hmem with rfl | hmem'
      · have hkeys : ∀ q ∈ ps, q.1 ≠ s := by
          intro q hq hqs
          refine hnd1 ?_
          have : s ∈ ps.map Prod.fst := by
            rw [← hqs]; exact List.mem_map_of_mem Prod.fst hq
          simpa using this
        have hcl : ∀ q ∈ ps, q.1 ∉ completed →
            (fun t => if t = s then v else last t) q.1 = last q.1 :=
          fun q hq _ => by simp [hkeys q hq]
        rw [stageContribution_cons_of_not_mem ps _ hnc,
          stageContribution_cons_of_not_mem ps last hnc,
          stageContribution_congr_last ps completed hcl]
        simp only [if_pos]
        ring
      · have hps : p.1 ≠ s := by
          intro hc
          refine hnd1 ?_
          rw [hc]
          exact List.mem_map_of_mem Prod.fst hmem'
        by_cases hpc : p.1 ∈ completed
        · rw [stageContribution_cons_of_mem ps _ hpc,
            stageContribution_cons_of_mem ps last hpc,
            ih completed last v hnd2 hmem' hnc]
        · rw [stageContribution_cons_of_not_mem ps _ hpc,
            stageContribution_cons_of_not_mem ps last hpc,
            ih completed last v hnd2 hmem' hnc]
          simp only [hps, if_false, ite_false]
          ring

/-- Changing the fraction of a stage that is completed or inactive leaves
the contribution unchanged. -/
lemma stageContribution_update_last_irrel
    (aw : List (String × ℚ)) (completed : List String) (last : String → ℚ)
    (v : ℚ) (s : String) (h : ∀ p ∈ aw, p.1 ∉ completed → p.1 ≠ s) :
    stageContribution aw completed (fun t => if t = s then v else last t) =
      stageContribution aw completed last := by
  apply stageContribution_congr_last
  intro p hp hnc
  simp [h p hp hnc]

/-- `get_total_progress` through `rawTotal`. -/
lemma get_total_progress_eq (m : TaskProgressModel) :
    m.get_total_progress =
      min (truncInt (rawTotal m / m.total_active_weight * 100)) 100 := rfl

/-- Python truncation toward zero is monotone. -/
lemma truncInt_mono {x y : ℚ} (h : x ≤ y) : truncInt x ≤ truncInt y := by
  unfold truncInt
  split_ifs with hx hy hy
  · exact Int.floor_le_floor h
  · exact absurd (hx.trans h) hy
  · calc ⌈x⌉ ≤ 0 := Int.ceil_le.mpr (by exact_mod_cast le_of_not_le hx)
      _ ≤ ⌊y⌋ := Int.floor_nonneg.mpr hy
  · exact Int.ceil_le_ceil h

/-- A stale fraction is ignored. -/
lemma updateStageProgress_of_lt {m : TaskProgressModel} {stage : String}
    {percent : ℚ} (h : ¬ m.last_known_stage_progress stage ≤ percent) :
    m.updateStageProgress stage percent = m := by
  unfold updateStageProgress
  rw [if_neg h]

/-- A fresh fraction below 1 only updates the stage's record. -/
lemma updateStageProgress_of_ge_lt_one {m : TaskProgressModel} {stage : String}
    {percent : ℚ} (h : m.last_known_stage_progress stage ≤ percent)
    (h1 : ¬ 1 ≤ percent) :
    m.updateStageProgress stage percent =
      { m with last_known_stage_progress :=
          fun s => if s = stage then percent else m.last_known_stage_progress s } := by
  unfold updateStageProgress
  rw [if_pos h, if_neg h1]

/-- A fresh fraction of at least 1 updates the record and completes the
stage. -/
lemma updateStageProgress_of_ge_ge_one {m : TaskProgressModel} {stage : String}
    {percent : ℚ} (h : m.last_known_stage_progress stage ≤ percent)
    (h1 : 1 ≤ percent) :
    m.updateStageProgress stage percent =
      TaskProgressModel.markStageCompleted
        { m with last_known_stage_progress :=
            fun s => if s = stage then percent else m.last_known_stage_progress s }
        stage := by
  unfold updateStageProgress
  rw [if_pos h, if_pos h1]

/-- Marking an inactive stage is a no-op. -/
lemma markStageCompleted_of_none {m : TaskProgressModel} {stage : String}
    (h : lookupQ m.active_weights stage = none) :
    m.markStageCompleted stage = m := by
  unfold markStageCompleted
  rw [h]

/-- Marking an already completed stage is a no-op. -/
lemma markStageCompleted_of_mem {m : TaskProgressModel} {stage : String} {w : ℚ}
    (h : lookupQ m.active_weights stage = some w) (hc : stage ∈ m.completedStages) :
    m.markStageCompleted stage = m := by
  simp [markStageCompleted, h, hc]

/-- Marking an active incomplete stage credits its full weight. -/
lemma markStageCompleted_of_not_mem {m : TaskProgressModel} {stage : String}
    {w : ℚ} (h : lookupQ m.active_weights stage = some w)
    (hc : stage ∉ m.completedStages) :
    m.markStageCompleted stage =
      { m with completed_weight := m.completed_weight + w
               completedStages := stage :: m.completedStages } := by
  simp [markStageCompleted, h, hc]

/-- `updateStageProgress` preserves well-formedness, never decreases the
raw total, and leaves the weight table, normalizer and params unchanged. -/
lemma updateStageProgress_spec {m : TaskProgressModel} (h : WF m)
    (stage : String) (percent : ℚ) :
    WF (m.updateStageProgress stage percent) ∧
      rawTotal m ≤ rawTotal (m.updateStageProgress stage percent) ∧
      (m.updateStageProgress stage percent).active_weights = m.active_weights ∧
      (m.updateStageProgress stage percent).total_active_weight =
        m.total_active_weight ∧
      (m.updateStageProgress stage percent).params = m.params := by
  obtain ⟨hnd, hwpos, hWpos, hcw, hlast, hbound⟩ := h
  by_cases hge : m.last_known_stage_progress stage ≤ percent
  swap
  · rw [updateStageProgress_of_lt hge]
    exact ⟨⟨hnd, hwpos, hWpos, hcw, hlast, hbound⟩, le_rfl, rfl, rfl, rfl⟩
  have hpercent0 : 0 ≤ percent := (hlast stage).trans hge
  have hupd_nonneg : ∀ s, 0 ≤
      (if s = stage then percent else m.last_known_stage_progress s) := by
    intro s
    by_cases hs : s = stage <;> simp [hs, hpercent0, hlast s]
  have hupd_ge : ∀ s, m.last_known_stage_progress s ≤
      (if s = stage then percent else m.last_known_stage_progress s) := by
    intro s
    by_cases hs : s = stage
    · subst hs; simpa using hge
    · simp [hs]
  by_cases h1 : 1 ≤ percent
  swap
  · rw [updateStageProgress_of_ge_lt_one hge h1]
    refine ⟨⟨hnd, hwpos, hWpos, hcw, hupd_nonneg, ?_⟩, ?_, rfl, rfl, rfl⟩
    · intro p hp hpc
      by_cases hs : p.1 = stage
      · simp only [hs, if_pos]
        exact le_of_not_le h1
      · simp only [hs, if_false, ite_false]
        exact hbound p hp hpc
    · unfold rawTotal
      simp only
      have := stageContribution_mono_last m.active_weights m.completedStages
        (fun p hp => (hwpos p hp).le) hupd_ge
      linarith
  rw [updateStageProgress_of_ge_ge_one hge h1]
  cases hlook : lookupQ m.active_weights stage with
  | none =>
      have hkeys := lookupQ_none_not_mem hlook
      have heq : TaskProgressModel.markStageCompleted
          { m with last_known_stage_progress :=
              fun s => if s = stage then percent else m.last_known_stage_progress s }
          stage =
          { m with last_known_stage_progress :=
              fun s => if s = stage then percent else m.last_known_stage_progress s } := by
        unfold markStageCompleted
        simp only [hlook]
      rw [heq]
      refine ⟨⟨hnd, hwpos, hWpos, hcw, hupd_nonneg, ?_⟩, ?_, rfl, rfl, rfl⟩
      · intro p hp hpc
        simp only [hkeys p hp, if_false, ite_false]
        exact hbound p hp hpc
      · unfold rawTotal
        simp only
        rw [stageContribution_update_last_irrel _ _ _ _ _
          (fun p hp _ => hkeys p hp)]
  | some w =>
      have hmem := lookupQ_some_mem hlook
      have hw : 0 < w := hwpos (stage, w) hmem
      by_cases hcs : stage ∈ m.completedStages
      · have heq : TaskProgressModel.markStageCompleted
            { m with last_known_stage_progress :=
                fun s => if s = stage then percent else m.last_known_stage_progress s }
            stage =
            { m with last_known_stage_progress :=
                fun s => if s = stage then percent else m.last_known_stage_progress s } := by
          unfold markStageCompleted
          simp only [hlook]
          rw [if_pos hcs]
        rw [heq]
        refine ⟨⟨hnd, hwpos, hWpos, hcw, hupd_nonneg, ?_⟩, ?_, rfl, rfl, rfl⟩
        · intro p hp hpc
          have hps : p.1 ≠ stage := fun hc => hpc (hc ▸ hcs)
          simp only [hps, if_false, ite_false]
          exact hbound p hp hpc
        · unfold rawTotal
          simp only
          rw [stageContribution_update_last_irrel _ _ _ _ _
            (fun p hp hpc => fun hc => hpc (hc ▸ hcs))]
      · have heq : TaskProgressModel.markStageCompleted
            { m with last_known_stage_progress :=
                fun s => if s = stage then percent else m.last_known_stage_progress s }
            stage =
            { m with completed_weight := m.completed_weight + w
                     completedStages := stage :: m.completedStages
                     last_known_stage_progress :=
                       fun s => if s = stage then percent
                         else m.last_known_stage_progress s } := by
          unfold markStageCompleted
          simp only [hlook]
          rw [if_neg hcs]
        rw [heq]
        have hb := hbound (stage, w) hmem hcs
        refine ⟨⟨hnd, hwpos, hWpos, by positivity, hupd_nonneg, ?_⟩,
          ?_, rfl, rfl, rfl⟩
        · intro p hp hpc
          have hpc' : p.1 ∉ m.completedStages := fun hc =>
            hpc (List.mem_cons_of_mem _ hc)
          have hps : p.1 ≠ stage := fun hc => hpc (by simp [hc])
          simp only [hps, if_false, ite_false]
          exact hbound p hp hpc'
        · unfold rawTotal
          simp only
          rw [stageContribution_cons_completed m.active_weights
              m.completedStages _ hnd hmem hcs,
            stageContribution_update_last m.active_weights m.completedStages
              m.last_known_stage_progress percent hnd hmem hcs]
          norm_num
          nlinarith [mul_nonneg hw.le (sub_nonneg.mpr hb)]

/-- `update_from_event` preserves well-formedness, never decreases the raw
total, and leaves the weight table, normalizer and params unchanged. -/
lemma update_from_event_spec {m : TaskProgressModel} (h : WF m)
    (component : String) (status : Option CompStatus) :
    WF (m.update_from_event component status) ∧
      rawTotal m ≤ rawTotal (m.update_from_event component status) ∧
      (m.update_from_event component status).active_weights = m.active_weights ∧
      (m.update_from_event component status).total_active_weight =
        m.total_active_weight ∧
      (m.update_from_event component status).params = m.params := by
  cases status with
  | none => exact ⟨h, le_rfl, rfl, rfl, rfl⟩
  | some s =>
      by_cases hpr : s = CompStatus.PENDING ∨ s = CompStatus.RUNNING
      · have heq : m.update_from_event component (some s) = m := by
          simp [update_from_event, hpr]
        rw [heq]
        exact ⟨h, le_rfl, rfl, rfl, rfl⟩
      by_cases hv : component = "video"
      · have heq : m.update_from_event component (some s) =
            m.updateStageProgress "video_upload" 1 := by
          simp [update_from_event, hpr, hv]
        rw [heq]
        exact updateStageProgress_spec h "video_upload" 1
      by_cases hs : component = "subtitle"
      swap
      · have heq : m.update_from_event component (some s) = m := by
          simp [update_from_event, hpr, hv, hs]
        rw [heq]
        exact ⟨h, le_rfl, rfl, rfl, rfl⟩
      obtain ⟨hwf1, hraw1, haw1, htw1, hp1⟩ :=
        updateStageProgress_spec h "subtitle_pipeline" 1
      by_cases hup : m.params.upload_subtitle = true ∧ s ≠ CompStatus.SKIPPED
      · have heq : m.update_from_event component (some s) =
            (m.updateStageProgress "subtitle_pipeline" 1).updateStageProgress
              "subtitle_upload" 1 := by
          simp [update_from_event, hpr, hv, hs, hup]
        rw [heq]
        obtain ⟨hwf2, hraw2, haw2, htw2, hp2⟩ :=
          updateStageProgress_spec hwf1 "subtitle_upload" 1
        exact ⟨hwf2, hraw1.trans hraw2, haw2.trans haw1, htw2.trans htw1,
          hp2.trans hp1⟩
      · have heq : m.update_from_event component (some s) =
            m.updateStageProgress "subtitle_pipeline" 1 := by
          simp only [update_from_event, hpr, hv, hs, hup]
          simp
        rw [heq]
        exact ⟨hwf1, hraw1, haw1, htw1, hp1⟩

end TaskProgressModel

/-- The weight table built by `__init__` has pairwise distinct stage keys. -/
lemma activeWeightsList_keys_nodup (params : TaskParams) :
    ((activeWeightsList params).map Prod.fst).Nodup := by
  obtain ⟨uv, es, us⟩ := params
  cases uv <;> cases es <;> cases us <;> simp [activeWeightsList]

/-- Every weight of the table is positive. -/
lemma activeWeightsList_pos (params : TaskParams) :
    ∀ p ∈ activeWeightsList params, 0 < p.2 := by
  obtain ⟨uv, es, us⟩ := params
  cases uv <;> cases es <;> cases us <;> intro p hp <;>
    simp [activeWeightsList] at hp <;> rcases hp with rfl | rfl | rfl | rfl <;>
    norm_num

/-- The normalizer is positive (the zero fallback guarantees it). -/
lemma totalActiveWeight_pos (params : TaskParams) :
    0 < totalActiveWeight params := by
  obtain ⟨uv, es, us⟩ := params
  cases uv <;> cases es <;> cases us <;> norm_num [totalActiveWeight, activeWeightsList]

/-- A fresh model is well formed. -/
lemma TaskProgressModel.init_WF (params : TaskParams) :
    (TaskProgressModel.init params).WF := by
  refine ⟨activeWeightsList_keys_nodup params, activeWeightsList_pos params,
    totalActiveWeight_pos params, le_rfl, fun _ => le_rfl, fun p _ _ => ?_⟩
  show (0 : ℚ) ≤ 1
  norm_num

/-- A fresh model has raw total 0. -/
lemma TaskProgressModel.init_rawTotal (params : TaskParams) :
    (TaskProgressModel.init params).rawTotal = 0 := by
  unfold TaskProgressModel.rawTotal TaskProgressModel.init
  simp only [mul_zero]
  rw [show TaskProgressModel.stageContribution (activeWeightsList params) []
      (fun _ => 0) = 0 from ?_]
  · norm_num
  · unfold TaskProgressModel.stageContribution
    induction activeWeightsList params with
    | nil => rfl
    | cons p ps ih => simp [ih]

/-- `get_total_progress` is monotone in the raw total for a fixed positive
normalizer. -/
lemma TaskProgressModel.get_total_mono {m m' : TaskProgressModel}
    (hW : m'.total_active_weight = m.total_active_weight)
    (hpos : 0 < m.total_active_weight)
    (hraw : m.rawTotal ≤ m'.rawTotal) :
    m.get_total_progress ≤ m'.get_total_progress := by
  rw [get_total_progress_eq, get_total_progress_eq, hW]
  refine min_le_min ?_ le_rfl
  apply TaskProgressModel.truncInt_mono
  gcongr

/-- `get_total_progress` of a well-formed model is nonnegative. -/
lemma TaskProgressModel.get_total_nonneg {m : TaskProgressModel} (h : m.WF) :
    0 ≤ m.get_total_progress := by
  obtain ⟨hnd, hwpos, hWpos, hcw, hlast, hbound⟩ := h
  rw [TaskProgressModel.get_total_progress_eq]
  have hraw : 0 ≤ m.rawTotal := by
    unfold TaskProgressModel.rawTotal
    have := TaskProgressModel.stageContribution_nonneg m.active_weights
      m.completedStages m.last_known_stage_progress
      (fun p hp => (hwpos p hp).le) hlast
    linarith
  have hx : 0 ≤ m.rawTotal / m.total_active_weight * 100 := by positivity
  refine le_min ?_ (by norm_num)
  unfold truncInt
  rw [if_pos hx]
  exact Int.floor_nonneg.mpr hx

/-- `get_total_progress` never exceeds 100. -/
lemma TaskProgressModel.get_total_le_100 (m : TaskProgressModel) :
    m.get_total_progress ≤ 100 :=
  min_le_right _ _

/-- C3 (corrected) counterexample: with only video upload requested and a
single `download` progress event of 0.5, the exact expression is 50/3 ≈
16.67, whose rounded value is 17, but `get_total_progress` returns 16:
the implementation truncates (`int(...)`), it does not round. -/
theorem C3_counterexample_truncates_not_rounds :
    ((TaskProgressModel.init ⟨true, false, false⟩).updateStageProgress "download"
      (1/2)).get_total_progress = 16 ∧
    specRoundTotal ((TaskProgressModel.init ⟨true, false, false⟩).updateStageProgress
      "download" (1/2)) = 17 := by
  constructor <;>
  · try unfold specRoundTotal specProgressExpr
    repeat first
      | simp +decide [TaskProgressModel.init, TaskProgressModel.get_total_progress,
          TaskProgressModel.stageContribution, TaskProgressModel.updateStageProgress,
          TaskProgressModel.markStageCompleted, TaskProgressModel.update_from_event,
          activeWeightsList, totalActiveWeight, truncInt, List.filter, lookupQ,
          round_eq]
      | norm_num

/-- C3 (corrected, amended): for every well-formed model state,
`get_total_progress` equals the claim's exact rational expression rounded
*down* (truncated toward zero, which on these nonnegative values is the
floor), clamped above at 100; the lower clamp is vacuous because the
value is never negative. -/
theorem C3_total_progress_is_truncated_formula (m : TaskProgressModel)
    (h : m.WF) :
    m.get_total_progress = min (max ⌊specProgressExpr m⌋ 0) 100 := by
  obtain ⟨hnd, hwpos, hWpos, hcw, hlast, hbound⟩ := h
  have hraw : 0 ≤ m.rawTotal := by
    unfold TaskProgressModel.rawTotal
    have := TaskProgressModel.stageContribution_nonneg m.active_weights
      m.completedStages m.last_known_stage_progress
      (fun p hp => (hwpos p hp).le) hlast
    linarith
  have hexpr : specProgressExpr m = m.rawTotal / m.total_active_weight * 100 := by
    unfold specProgressExpr TaskProgressModel.rawTotal
    ring
  have hx : 0 ≤ m.rawTotal / m.total_active_weight * 100 := by positivity
  rw [TaskProgressModel.get_total_progress_eq, hexpr]
  unfold truncInt
  rw [if_pos hx, max_eq_left (Int.floor_nonneg.mpr hx)]

/-- Witness for the amended C3 theorem at a concrete well-formed model. -/
theorem C3_total_progress_is_truncated_formula_witness :
    (TaskProgressModel.init ⟨true, false, false⟩).get_total_progress =
      min (max ⌊specProgressExpr (TaskProgressModel.init ⟨true, false, false⟩)⌋ 0)
        100 :=
  C3_total_progress_is_truncated_formula _
    (TaskProgressModel.init_WF ⟨true, false, false⟩)

/-- Witness for C6 at a one-chunk input whose batch always gets HTTP 500. -/
theorem C6_failure_contract_witness :
    (∀ (b : ℕ) (g : List Chunk), (processSubtitleBatch g
        ((fun _ _ => AttemptOutcome.httpError 500) b)).result =
      .error "batch failed") ∧
      pipelineFromAttempts [⟨"c", 0, 900⟩] (fun _ _ => .httpError 500) = [] :=
  C6_failure_contract [⟨"c", 0, 900⟩] (fun _ _ => .httpError 500)
    (fun _ _ => rfl)

/-- Witness for C7 at a one-chunk input with one successful batch. -/
theorem C7_partition_and_reassembly_witness :
    (chunkGroups [⟨"c", 0, 900⟩]).flatten = [⟨"c", 0, 900⟩] ∧
      (chunkGroups [⟨"c", 0, 900⟩]).length =
        (([⟨"c", 0, 900⟩] : List Chunk).length + SUBTITLE_BATCH_SIZE - 1) /
          SUBTITLE_BATCH_SIZE ∧
      List.Perm (runPipelineBlocks [⟨"c", 0, 900⟩] [.ok [⟨0, 400, "a"⟩]])
        (([.ok [⟨0, 400, "a"⟩]] :
          List (Except String (List SrtBlock))).filterMap Except.toOption).flatten ∧
      (runPipelineBlocks [⟨"c", 0, 900⟩] [.ok [⟨0, 400, "a"⟩]]).Pairwise
        (fun a b => a.start_ms ≤ b.start_ms) :=
  C7_partition_and_reassembly [⟨"c", 0, 900⟩] [.ok [⟨0, 400, "a"⟩]] (by decide)

/-- `aggStep` on an unknown task id. -/
lemma aggStep_none {st : AggState} (h : st.task = none) (e : Event) :
    aggStep st e = st := by
  unfold aggStep
  rw [h]

/-- `aggStep` on a present task, with the body written out. -/
lemma aggStep_some {st : AggState} {t : Task} (h : st.task = some t) (e : Event) :
    aggStep st e =
      (if evalReady (refreshProgress (dispatchEvent t (ensureModel st t) e).1
          (dispatchEvent t (ensureModel st t) e).2) then
        { task := some (finalizeTask
            (refreshProgress (dispatchEvent t (ensureModel st t) e).1
              (dispatchEvent t (ensureModel st t) e).2))
          model := none
          cleanups := st.cleanups + 1
          lastEvalTotal := (dispatchEvent t (ensureModel st t) e).2.map
            TaskProgressModel.get_total_progress }
      else
        { st with
            task := some (refreshProgress (dispatchEvent t (ensureModel st t) e).1
              (dispatchEvent t (ensureModel st t) e).2)
            model := (dispatchEvent t (ensureModel st t) e).2 }) := by
  unfold aggStep
  rw [h]

/-- The ensured model is always present. -/
lemma ensureModel_isSome (st : AggState) (t : Task) :
    ∃ m, ensureModel st t = some m := by
  unfold ensureModel
  cases st.model <;> exact ⟨_, rfl⟩

/-- Dispatch keeps the model present. -/
lemma dispatchEvent_model_isSome (t : Task) {mo : Option TaskProgressModel}
    (m : TaskProgressModel) (h : mo = some m) (e : Event) :
    ∃ m', (dispatchEvent t mo e).2 = some m' := by
  subst h
  cases e with
  | progressEvent stage percent => exact ⟨_, rfl⟩
  | componentUpdate comp data =>
      by_cases hc : comp = "video"
      · exact ⟨m.update_from_event comp data.status, by simp [dispatchEvent, hc]⟩
      by_cases hs : comp = "subtitle"
      · exact ⟨m.update_from_event comp data.status, by simp [dispatchEvent, hc, hs]⟩
      · exact ⟨m, by simp [dispatchEvent, hc, hs]⟩
  | taskFailed err => exact ⟨_, rfl⟩

/-- The dispatched task status: a fatal event forces `FAILED`, everything
else leaves the task status unchanged. -/
lemma dispatchEvent_status (t : Task) (mo : Option TaskProgressModel) (e : Event) :
    (dispatchEvent t mo e).1.status =
      (match e with
      | .taskFailed _ => TaskStatus.FAILED
      | _ => t.status) := by
  cases e with
  | progressEvent stage percent => rfl
  | componentUpdate comp data =>
      by_cases hc : comp = "video"
      · simp [dispatchEvent, hc]
      by_cases hs : comp = "subtitle"
      · simp [dispatchEvent, hc, hs]
      · simp [dispatchEvent, hc, hs]
  | taskFailed err => rfl

/-- A terminal task stays untouched by the refresh. -/
lemma refreshProgress_of_terminal {t : Task} (m : Option TaskProgressModel)
    (h : t.status.isTerminal = true) : refreshProgress t m = t := by
  unfold refreshProgress
  rw [if_pos h]

/-- A terminal task status survives dispatch and refresh. -/
lemma terminal_propagates {t : Task} (mo : Option TaskProgressModel) (e : Event)
    (h : t.status.isTerminal = true) :
    (refreshProgress (dispatchEvent t mo e).1
      (dispatchEvent t mo e).2).status.isTerminal = true := by
  have hst := dispatchEvent_status t mo e
  have hterm : (dispatchEvent t mo e).1.status.isTerminal = true := by
    rw [hst]
    cases e <;> simpa [TaskStatus.isTerminal] using h
  rw [refreshProgress_of_terminal _ hterm]
  exact hterm

/-- The computed final status is always terminal. -/
lemma finalStatus_isTerminal (vs ss : CompStatus) :
    (finalStatus vs ss).isTerminal = true := by
  cases vs <;> cases ss <;> rfl

/-- The finalized task is terminal. -/
lemma finalizeTask_isTerminal (t : Task) :
    (finalizeTask t).status.isTerminal = true :=
  finalStatus_isTerminal _ _

/-- One aggregator step preserves the cleanup invariant. -/
lemma Inv9_step (st : AggState) (e : Event) (h : Inv9 st) : Inv9 (aggStep st e) := by
  obtain ⟨hle, hterm⟩ := h
  cases htask : st.task with
  | none => rw [aggStep_none htask]; exact ⟨hle, hterm⟩
  | some t =>
      rw [aggStep_some htask]
      split_ifs with hev
      · have hc0 : st.cleanups = 0 := by
          by_contra hneq
          have h1' : st.cleanups = 1 :=
            le_antisymm hle (Nat.one_le_iff_ne_zero.mpr hneq)
          obtain ⟨t', ht', hterm'⟩ := hterm h1'
          rw [htask] at ht'
          obtain rfl := Option.some_injective _ ht'
          have hthis := terminal_propagates (ensureModel st t) e hterm'
          have hfalse := hev.2.2
          rw [hthis] at hfalse
          simp at hfalse
        constructor
        · show st.cleanups + 1 ≤ 1
          omega
        · intro _
          exact ⟨_, rfl, finalizeTask_isTerminal _⟩
      · refine ⟨hle, fun h1 => ?_⟩
        obtain ⟨t', ht', hterm'⟩ := hterm h1
        rw [htask] at ht'
        obtain rfl := Option.some_injective _ ht'
        exact ⟨_, rfl, terminal_propagates (ensureModel st t) e hterm'⟩

/-- The cleanup invariant is preserved over a whole run. -/
lemma Inv9_runAgg (events : List Event) : ∀ st : AggState, Inv9 st →
    Inv9 (runAgg st events) := by
  induction events with
  | nil => intro st h; exact h
  | cons e es ih => intro st h; exact ih _ (Inv9_step st e h)

/-- C9 (corrected, amended): the model-discard/temp-dir cleanup runs only
inside the guarded terminal-evaluation branch, so it runs at most once per
task over every event sequence; "exactly once" fails because a task
reaching FAILED through the fatal `task_failed` path never triggers it. -/
theorem C9_cleanup_at_most_once (params : TaskParams) (events : List Event) :
    (runAgg (initState params) events).cleanups ≤ 1 :=
  (Inv9_runAgg events (initState params)
    ⟨by norm_num [initState], fun h => by simp [initState] at h⟩).1

/-- C9 (corrected) counterexample: a task failed through the fatal
`task_failed` event is terminal (status FAILED), yet its cleanup never ran
(count 0) and its progress model is still retained - cleanup does not
happen "exactly once per task" on this path. -/
theorem C9_counterexample_fatal_path_skips_cleanup :
    (runAgg (initState ⟨true, true, true⟩) [.taskFailed "boom"]).taskStatus =
        .FAILED ∧
      (runAgg (initState ⟨true, true, true⟩) [.taskFailed "boom"]).cleanups = 0 ∧
      (runAgg (initState ⟨true, true, true⟩)
        [.taskFailed "boom"]).model.isSome = true := by
  repeat first
    | simp +decide [TaskProgressModel.init, TaskProgressModel.get_total_progress,
        TaskProgressModel.stageContribution, TaskProgressModel.updateStageProgress,
        TaskProgressModel.markStageCompleted, TaskProgressModel.update_from_event,
        activeWeightsList, totalActiveWeight, truncInt, List.filter, lookupQ,
        runAgg, aggStep, initState, initialTask, applyComponentUpdate,
        dispatchEvent, refreshProgress, evalReady, finalizeTask, ensureModel,
        AggState.taskStatus, forceFail, finalStatus, CompStatus.settled,
        TaskStatus.isTerminal]
    | norm_num

/-- The merge replaces the status with the event's status when present. -/
lemma applyComponentUpdate_status (c : ComponentResult) (d : UpdateData) :
    (applyComponentUpdate c d).status = d.status.getD c.status := by
  rcases hd : d.output with _ | o <;> rcases hc : c.output with _ | dd <;>
    simp [applyComponentUpdate, hd, hc]

/-- The refresh does not touch the video component. -/
lemma refreshProgress_video (t : Task) (m : Option TaskProgressModel) :
    (refreshProgress t m).video = t.video := by
  unfold refreshProgress
  split_ifs
  · rfl
  · cases m <;> rfl

/-- The refresh does not touch the subtitle component. -/
lemma refreshProgress_subtitle (t : Task) (m : Option TaskProgressModel) :
    (refreshProgress t m).subtitle = t.subtitle := by
  unfold refreshProgress
  split_ifs
  · rfl
  · cases m <;> rfl

/-- The `RUNNING`-to-`FAILED` forcing is a no-op on settled components. -/
lemma forceFail_of_settled {c : ComponentResult} (h : c.status.settled = true) :
    forceFail c = c := by
  unfold forceFail
  rcases hc : c.status <;> rw [hc] at h <;> simp_all [CompStatus.settled]

/-- Dispatch rewrites the video status exactly as `stepComp`. -/
lemma dispatchEvent_video_status (t : Task) (mo : Option TaskProgressModel)
    (e : Event) :
    (dispatchEvent t mo e).1.video.status = stepComp "video" e t.video.status := by
  cases e with
  | progressEvent stage percent => rfl
  | taskFailed err => rfl
  | componentUpdate comp data =>
      by_cases hc : comp = "video"
      · simp [dispatchEvent, stepComp, hc, applyComponentUpdate_status]
      by_cases hs : comp = "subtitle"
      · simp [dispatchEvent, stepComp, hc, hs]
      · simp [dispatchEvent, stepComp, hc, hs]

/-- Dispatch rewrites the subtitle status exactly as `stepComp`. -/
lemma dispatchEvent_subtitle_status (t : Task) (mo : Option TaskProgressModel)
    (e : Event) :
    (dispatchEvent t mo e).1.subtitle.status =
      stepComp "subtitle" e t.subtitle.status := by
  cases e with
  | progressEvent stage percent => rfl
  | taskFailed err => rfl
  | componentUpdate comp data =>
      by_cases hc : comp = "video"
      · simp [dispatchEvent, stepComp, hc]
      by_cases hs : comp = "subtitle"
      · simp [dispatchEvent, stepComp, hc, hs, applyComponentUpdate_status]
      · simp [dispatchEvent, stepComp, hc, hs]

/-- One aggregator step rewrites both component statuses as `stepComp`
(the forced `FAILED` of the terminal evaluation is a no-op because the
guard requires both components settled). -/
lemma aggStep_comp_status {st : AggState} {t : Task} (h : st.task = some t)
    (e : Event) :
    ∃ t', (aggStep st e).task = some t' ∧
      t'.video.status = stepComp "video" e t.video.status ∧
      t'.subtitle.status = stepComp "subtitle" e t.subtitle.status := by
  rw [aggStep_some h]
  have hv2 : (refreshProgress (dispatchEvent t (ensureModel st t) e).1
      (dispatchEvent t (ensureModel st t) e).2).video.status =
      stepComp "video" e t.video.status := by
    rw [refreshProgress_video, dispatchEvent_video_status]
  have hs2 : (refreshProgress (dispatchEvent t (ensureModel st t) e).1
      (dispatchEvent t (ensureModel st t) e).2).subtitle.status =
      stepComp "subtitle" e t.subtitle.status := by
    rw [refreshProgress_subtitle, dispatchEvent_subtitle_status]
  split_ifs with hev
  · refine ⟨_, rfl, ?_, ?_⟩
    · show (forceFail _).status = _
      rw [forceFail_of_settled hev.1]
      exact hv2
    · show (forceFail _).status = _
      rw [forceFail_of_settled hev.2.1]
      exact hs2
  · exact ⟨_, rfl, hv2, hs2⟩

/-- Over a whole run both component statuses are the last-writer fold. -/
lemma runAgg_comp_status (events : List Event) : ∀ (st : AggState) (t : Task),
    st.task = some t →
    ∃ t', (runAgg st events).task = some t' ∧
      t'.video.status = lastWrittenStatus "video" events t.video.status ∧
      t'.subtitle.status = lastWrittenStatus "subtitle" events t.subtitle.status := by
  induction events with
  | nil => intro st t h; exact ⟨t, h, rfl, rfl⟩
  | cons e es ih =>
      intro st t h
      obtain ⟨t1, ht1, hv1, hs1⟩ := aggStep_comp_status h e
      obtain ⟨t', ht', hv', hs'⟩ := ih (aggStep st e) t1 ht1
      refine ⟨t', ht', ?_, ?_⟩
      · rw [hv', hv1]; rfl
      · rw [hs', hs1]; rfl

/-- C4 (corrected, amended): the aggregator's component merge is
last-writer-wins: after any sequence of events, a component's status is
exactly the status carried by the last applied `component_update` for it
(or the initial status if none carried one). In particular a terminal
status does not persist: a later event carrying `RUNNING` overwrites it,
so the no-regress property only holds for sequences in which no
non-terminal status arrives after a terminal one. -/
theorem C4_component_status_last_writer_wins (params : TaskParams)
    (events : List Event) :
    ((runAgg (initState params) events).task.map fun t => t.video.status) =
      some (lastWrittenStatus "video" events
        (if params.upload_video then .PENDING else .SKIPPED)) ∧
    ((runAgg (initState params) events).task.map fun t => t.subtitle.status) =
      some (lastWrittenStatus "subtitle" events
        (if params.extract_subtitle then .PENDING else .SKIPPED)) := by
  obtain ⟨t', ht', hv, hs⟩ :=
    runAgg_comp_status events (initState params) (initialTask params) rfl
  rw [ht']
  constructor
  · rw [show ((some t').map fun t : Task => t.video.status) =
      some t'.video.status from rfl, hv]
    rfl
  · rw [show ((some t').map fun t : Task => t.subtitle.status) =
      some t'.subtitle.status from rfl, hs]
    rfl

/-- C4 (corrected) counterexample: a `component_update` carrying `RUNNING`
applied after the video component reached `SUCCESS` drags the status back
to `RUNNING` - the merge has no terminal-status guard. -/
theorem C4_counterexample_terminal_status_regresses :
    ((runAgg (initState ⟨true, true, false⟩)
        [.componentUpdate "video" { status := some .SUCCESS }]).task.map
      fun t => t.video.status) = some .SUCCESS ∧
    ((runAgg (initState ⟨true, true, false⟩)
        [.componentUpdate "video" { status := some .SUCCESS },
         .componentUpdate "video" { status := some .RUNNING }]).task.map
      fun t => t.video.status) = some .RUNNING := by
  repeat first
    | simp +decide [TaskProgressModel.init, TaskProgressModel.get_total_progress,
        TaskProgressModel.stageContribution, TaskProgressModel.updateStageProgress,
        TaskProgressModel.markStageCompleted, TaskProgressModel.update_from_event,
        activeWeightsList, totalActiveWeight, truncInt, List.filter, lookupQ,
        runAgg, aggStep, initState, initialTask, applyComponentUpdate,
        dispatchEvent, refreshProgress, evalReady, finalizeTask, ensureModel,
        forceFail, finalStatus, CompStatus.settled, TaskStatus.isTerminal]
    | norm_num

/-- C2 (corrected) counterexample: with video upload, subtitle extraction
and subtitle upload all requested, download complete and both components
terminal - the subtitle as `SKIPPED` - the task is terminal (final status
`SUCCESS`) but the Progress Model's `get_total_progress` observed at the
terminal evaluation is 90, not 100: `mark_component_terminal` never
credits the `subtitle_upload` weight for a skipped subtitle. -/
theorem C2_counterexample_skipped_subtitle_not_100 :
    (runAgg (initState ⟨true, true, true⟩)
      (terminalEvts .SUCCESS .SKIPPED)).lastEvalTotal = some 90 ∧
    (runAgg (initState ⟨true, true, true⟩)
      (terminalEvts .SUCCESS .SKIPPED)).taskStatus = .SUCCESS := by
  repeat first
    | simp +decide [TaskProgressModel.init, TaskProgressModel.get_total_progress,
        TaskProgressModel.stageContribution, TaskProgressModel.updateStageProgress,
        TaskProgressModel.markStageCompleted, TaskProgressModel.update_from_event,
        activeWeightsList, totalActiveWeight, truncInt, List.filter, lookupQ,
        runAgg, aggStep, initState, initialTask, applyComponentUpdate,
        dispatchEvent, refreshProgress, evalReady, finalizeTask, ensureModel,
        AggState.taskStatus, forceFail, finalStatus, CompStatus.settled,
        TaskStatus.isTerminal, terminalEvts]
    | norm_num

set_option maxHeartbeats 4000000 in
/-- C2 (corrected, amended): for every combination of requested
operations, once the download completes and both components reach a
terminal status the task becomes terminal, and the model total observed
at that moment is 100 - except when subtitle extraction and upload were
requested and the subtitle terminal status is `SKIPPED`, where the
`subtitle_upload` weight is never credited and the total is 90 (with
video upload) or 83 (without); with no operation requested it is 0. -/
theorem C2_weight_closure_at_terminal (uv es us : Bool) (sv ss : CompStatus)
    (hv : sv.settled = true) (hs : ss.settled = true) :
    (runAgg (initState ⟨uv, es, us⟩) (terminalEvts sv ss)).lastEvalTotal =
      some (if uv = true ∨ es = true then
              (if es = true ∧ us = true ∧ ss = CompStatus.SKIPPED then
                (if uv = true then 90 else 83)
              else 100)
            else 0) ∧
    (runAgg (initState ⟨uv, es, us⟩)
      (terminalEvts sv ss)).taskStatus.isTerminal = true := by
  cases uv <;> cases es <;> cases us <;> cases sv <;> cases ss <;>
    first
    | exact absurd hv (by decide)
    | exact absurd hs (by decide)
    | repeat first
      | simp +decide [TaskProgressModel.init, TaskProgressModel.get_total_progress,
          TaskProgressModel.stageContribution, TaskProgressModel.updateStageProgress,
          TaskProgressModel.markStageCompleted, TaskProgressModel.update_from_event,
          activeWeightsList, totalActiveWeight, truncInt, List.filter, lookupQ,
          runAgg, aggStep, initState, initialTask, applyComponentUpdate,
          dispatchEvent, refreshProgress, evalReady, finalizeTask, ensureModel,
          AggState.taskStatus, forceFail, finalStatus, CompStatus.settled,
          TaskStatus.isTerminal, terminalEvts]
      | norm_num

/-- Witness for the amended C2 theorem: everything requested, both
components `SUCCESS`; the observed total is 100 and the task terminal. -/
theorem C2_weight_closure_at_terminal_witness :
    (runAgg (initState ⟨true, true, true⟩)
      (terminalEvts .SUCCESS .SUCCESS)).lastEvalTotal = some 100 ∧
    (runAgg (initState ⟨true, true, true⟩)
      (terminalEvts .SUCCESS .SUCCESS)).taskStatus.isTerminal = true := by
  have h := C2_weight_closure_at_terminal true true true .SUCCESS .SUCCESS
    (by decide) (by decide)
  simpa using h

/-- The dispatched task progress: a fatal event forces 100, every other
event leaves the stored progress alone. -/
lemma dispatchEvent_progress (t : Task) (mo : Option TaskProgressModel)
    (e : Event) :
    (dispatchEvent t mo e).1.progress =
      (match e with
      | .taskFailed _ => 100
      | _ => t.progress) := by
  cases e with
  | progressEvent stage percent => rfl
  | taskFailed err => rfl
  | componentUpdate comp data =>
      by_cases hc : comp = "video"
      · simp [dispatchEvent, hc]
      by_cases hs : comp = "subtitle"
      · simp [dispatchEvent, hc, hs]
      · simp [dispatchEvent, hc, hs]

/-- Dispatch applied to a present well-formed model yields a present
well-formed model with the same normalizer and a raw total at least as
large. -/
lemma dispatchEvent_model_spec (t : Task) {mo : Option TaskProgressModel}
    {m0 : TaskProgressModel} (h0 : mo = some m0) (hwf : m0.WF) (e : Event) :
    ∃ m1, (dispatchEvent t mo e).2 = some m1 ∧ m1.WF ∧
      m0.rawTotal ≤ m1.rawTotal ∧
      m1.total_active_weight = m0.total_active_weight := by
  subst h0
  cases e with
  | progressEvent stage percent =>
      obtain ⟨hwf1, hraw, _, hW, _⟩ :=
        TaskProgressModel.updateStageProgress_spec hwf stage percent
      exact ⟨_, rfl, hwf1, hraw, hW⟩
  | taskFailed err => exact ⟨m0, rfl, hwf, le_rfl, rfl⟩
  | componentUpdate comp data =>
      by_cases hc : comp = "video"
      · obtain ⟨hwf1, hraw, _, hW, _⟩ :=
          TaskProgressModel.update_from_event_spec hwf comp data.status
        exact ⟨_, by simp [dispatchEvent, hc], hwf1, hraw, hW⟩
      by_cases hs : comp = "subtitle"
      · obtain ⟨hwf1, hraw, _, hW, _⟩ :=
          TaskProgressModel.update_from_event_spec hwf comp data.status
        exact ⟨_, by simp [dispatchEvent, hc, hs], hwf1, hraw, hW⟩
      · exact ⟨m0, by simp [dispatchEvent, hc, hs], hwf, le_rfl, rfl⟩

/-- The refresh of a non-terminal task with a model present. -/
lemma refreshProgress_of_not_terminal {t1 : Task} (m1 : TaskProgressModel)
    (h : t1.status.isTerminal = false) :
    refreshProgress t1 (some m1) =
      { t1 with status := .RUNNING, progress := m1.get_total_progress } := by
  unfold refreshProgress
  simp [h]

/-- One aggregator step preserves the invariant and never decreases the
published progress. -/
lemma InvC1_step (st : AggState) (e : Event) (h : InvC1 st) :
    InvC1 (aggStep st e) ∧ st.taskProgress ≤ (aggStep st e).taskProgress := by
  obtain ⟨t, htask, hp0, hp100, hterm100, hwfm, hlink⟩ := h
  have htp : st.taskProgress = t.progress := by
    simp [AggState.taskProgress, htask]
  obtain ⟨m0, hm0⟩ := ensureModel_isSome st t
  have hwf0 : m0.WF := by
    unfold ensureModel at hm0
    cases hsm : st.model with
    | some m =>
        rw [hsm] at hm0
        obtain rfl := Option.some_injective _ hm0
        exact hwfm _ hsm
    | none =>
        rw [hsm] at hm0
        obtain rfl := Option.some_injective _ hm0
        exact TaskProgressModel.init_WF t.params
  have hlink0 : t.status.isTerminal = false →
      t.progress ≤ m0.get_total_progress := by
    intro hnt
    unfold ensureModel at hm0
    cases hsm : st.model with
    | some m =>
        rw [hsm] at hm0
        obtain rfl := Option.some_injective _ hm0
        exact (hlink hnt).2 _ hsm
    | none =>
        rw [hsm] at hm0
        obtain rfl := Option.some_injective _ hm0
        rw [(hlink hnt).1 hsm]
        exact TaskProgressModel.get_total_nonneg (TaskProgressModel.init_WF t.params)
  obtain ⟨m1, hm1, hwf1, hraw1, hW1⟩ := dispatchEvent_model_spec t hm0 hwf0 e
  have hg01 : m0.get_total_progress ≤ m1.get_total_progress :=
    TaskProgressModel.get_total_mono hW1 hwf0.2.2.1 hraw1
  have hst1 := dispatchEvent_status t (ensureModel st t) e
  have hpr1 := dispatchEvent_progress t (ensureModel st t) e
  rw [aggStep_some htask]
  by_cases hterm : t.status.isTerminal = true
  · have h100 := hterm100 hterm
    have hterm1 : (dispatchEvent t (ensureModel st t) e).1.status.isTerminal = true := by
      rw [hst1]
      cases e <;> simpa [TaskStatus.isTerminal] using hterm
    have hpr1' : (dispatchEvent t (ensureModel st t) e).1.progress = 100 := by
      rw [hpr1]
      cases e <;> simp [h100]
    rw [refreshProgress_of_terminal _ hterm1]
    have hev : ¬ evalReady (dispatchEvent t (ensureModel st t) e).1 := by
      intro hev
      have hfalse := hev.2.2
      rw [hterm1] at hfalse
      simp at hfalse
    rw [if_neg hev]
    constructor
    · refine ⟨_, rfl, by simp [hpr1'], by simp [hpr1'],
        fun _ => hpr1', fun m hm => ?_, fun hnt => ?_⟩
      · rw [hm1] at hm
        obtain rfl := Option.some_injective _ hm
        exact hwf1
      · exact absurd (hterm1.symm.trans hnt) (by decide)
    · rw [htp]
      show t.progress ≤ (dispatchEvent t (ensureModel st t) e).1.progress
      rw [hpr1']
      exact hp100
  · have hterm' : t.status.isTerminal = false := by
      cases hb : t.status.isTerminal
      · rfl
      · exact absurd hb hterm
    cases e with
    | taskFailed err =>
        have hterm1 : (dispatchEvent t (ensureModel st t)
            (.taskFailed err)).1.status.isTerminal = true := by
          rw [hst1]
          rfl
        have hpr1' : (dispatchEvent t (ensureModel st t)
            (.taskFailed err)).1.progress = 100 := by
          rw [hpr1]
        rw [refreshProgress_of_terminal _ hterm1]
        have hev : ¬ evalReady (dispatchEvent t (ensureModel st t)
            (.taskFailed err)).1 := by
          intro hev
          have hfalse := hev.2.2
          rw [hterm1] at hfalse
          simp at hfalse
        rw [if_neg hev]
        constructor
        · refine ⟨_, rfl, by simp [hpr1'], by simp [hpr1'],
            fun _ => hpr1', fun m hm => ?_, fun hnt => ?_⟩
          · rw [hm1] at hm
            obtain rfl := Option.some_injective _ hm
            exact hwf1
          · exact absurd (hterm1.symm.trans hnt) (by decide)
        · rw [htp]
          show t.progress ≤ (dispatchEvent t (ensureModel st t)
            (.taskFailed err)).1.progress
          rw [hpr1']
          exact hp100
    | progressEvent stage percent =>
        have hterm1 : (dispatchEvent t (ensureModel st t)
            (.progressEvent stage percent)).1.status.isTerminal = false := by
          rw [hst1]
          exact hterm'
        have hpr1' : (dispatchEvent t (ensureModel st t)
            (.progressEvent stage percent)).1.progress = t.progress := by
          rw [hpr1]
        have hchain : t.progress ≤ m1.get_total_progress :=
          (hlink0 hterm').trans hg01
        rw [hm1, refreshProgress_of_not_terminal m1 hterm1]
        split_ifs with hev
        · constructor
          · refine ⟨_, rfl, by show (0 : ℤ) ≤ 100; norm_num,
              by show (100 : ℤ) ≤ 100; norm_num, fun _ => rfl,
              fun m hm => by simp at hm, fun hnt => ?_⟩
            exact absurd ((finalizeTask_isTerminal _).symm.trans hnt) (by decide)
          · rw [htp]
            show t.progress ≤ (100 : ℤ)
            exact hp100
        · constructor
          · refine ⟨_, rfl, ?_, ?_, ?_, ?_, ?_⟩
            · exact le_trans hp0 hchain
            · exact TaskProgressModel.get_total_le_100 m1
            · intro habs
              simp [TaskStatus.isTerminal] at habs
            · intro m hm
              obtain rfl := Option.some_injective _ hm
              exact hwf1
            · intro _
              refine ⟨fun habs => ?_, fun m hm => ?_⟩
              · exact Option.noConfusion habs
              · obtain rfl := Option.some_injective _ hm
                exact le_rfl
          · rw [htp]
            show t.progress ≤ m1.get_total_progress
            exact hchain
    | componentUpdate comp data =>
        have hterm1 : (dispatchEvent t (ensureModel st t)
            (.componentUpdate comp data)).1.status.isTerminal = false := by
          rw [hst1]
          exact hterm'
        have hpr1' : (dispatchEvent t (ensureModel st t)
            (.componentUpdate comp data)).1.progress = t.progress := by
          rw [hpr1]
        have hchain : t.progress ≤ m1.get_total_progress :=
          (hlink0 hterm').trans hg01
        rw [hm1, refreshProgress_of_not_terminal m1 hterm1]
        split_ifs with hev
        · constructor
          · refine ⟨_, rfl, by show (0 : ℤ) ≤ 100; norm_num,
              by show (100 : ℤ) ≤ 100; norm_num, fun _ => rfl,
              fun m hm => by simp at hm, fun hnt => ?_⟩
            exact absurd ((finalizeTask_isTerminal _).symm.trans hnt) (by decide)
          · rw [htp]
            show t.progress ≤ (100 : ℤ)
            exact hp100
        · constructor
          · refine ⟨_, rfl, ?_, ?_, ?_, ?_, ?_⟩
            · exact le_trans hp0 hchain
            · exact TaskProgressModel.get_total_le_100 m1
            · intro habs
              simp [TaskStatus.isTerminal] at habs
            · intro m hm
              obtain rfl := Option.some_injective _ hm
              exact hwf1
            · intro _
              refine ⟨fun habs => ?_, fun m hm => ?_⟩
              · exact Option.noConfusion habs
              · obtain rfl := Option.some_injective _ hm
                exact le_rfl
          · rw [htp]
            show t.progress ≤ m1.get_total_progress
            exact hchain

/-- The invariant holds for the freshly created registry entry. -/
lemma InvC1_init (params : TaskParams) : InvC1 (initState params) := by
  refine ⟨initialTask params, rfl, le_rfl, by show (0 : ℤ) ≤ 100; norm_num,
    ?_, ?_, ?_⟩
  · intro habs
    simp [initialTask, TaskStatus.isTerminal] at habs
  · intro m hm
    exact Option.noConfusion hm
  · intro _
    exact ⟨fun _ => rfl, fun m hm => Option.noConfusion hm⟩

/-- Every trace of published progress values starting from an invariant
state is monotonically non-decreasing. -/
lemma InvC1_scanl (events : List Event) :
    ∀ st : AggState, InvC1 st →
      List.Chain' (· ≤ ·)
        ((events.scanl aggStep st).map AggState.taskProgress) := by
  induction events with
  | nil =>
      intro st _
      simp
  | cons e es ih =>
      intro st h
      rw [List.scanl_cons, List.singleton_append, List.map_cons]
      refine List.chain'_cons'.mpr ⟨?_, ih (aggStep st e) (InvC1_step st e h).1⟩
      intro y hy
      have hhead : ((es.scanl aggStep (aggStep st e)).map
          AggState.taskProgress).head? = some ((aggStep st e).taskProgress) := by
        cases es <;> rfl
      rw [Option.mem_def, hhead] at hy
      obtain rfl := Option.some_injective _ hy
      exact (InvC1_step st e h).2

/-- C1: for every task parameter combination and every sequence of events
delivered to the result aggregator, the successive `progress` values a
poller can observe (one per processed event, from creation of the entry
through and beyond the terminal state) are monotonically non-decreasing. -/
theorem C1_progress_monotone (params : TaskParams) (events : List Event) :
    List.Chain' (· ≤ ·) (progressTrace params events) := by
  unfold progressTrace
  exact InvC1_scanl events (initState params) (InvC1_init params)

/-- Witness for C8: an open-ended first subtitle resolves to the next
subtitle's start offset. -/
theorem C8_end_offset_resolution_witness :
    ((batchBlocks [⟨"c", 0, 900⟩] [⟨0, none, "a"⟩, ⟨400, some 300, "b"⟩]).getD 0
      ⟨0, 0, ""⟩).end_ms = 400 := by
  have h := C8_end_offset_resolution [⟨"c", 0, 900⟩]
    [⟨0, none, "a"⟩, ⟨400, some 300, "b"⟩] 0 (by decide)
  rw [h.2.2.1]
  decide

end KaggleMix
